import Mathlib

/-!
Verification development for the CDES MCP server catalog engine
(`src/cdes_mcp_server/server.py`).

The Python module is shallowly embedded:

* JSON values are the inductive `Json` (numbers are modelled as integers;
  no claim here depends on float formatting).
* The process-wide catalog state (`_SCHEMA_CACHE`, `_REFERENCE_CACHE`,
  the schema/reference directories on disk, `_last_sync`) is the
  structure `Store`; the directory contents are modelled as association
  lists from file stem to the parsed document.
* Functions that can raise (`FileNotFoundError`, `KeyError`,
  `AttributeError`, `str.lower` on a non-string) return `Except Err`.
* The third-party `jsonschema` validator traversal (`iter_errors`) is not
  code of this repository; it is a parameter `ie` of the embedded
  `validate_data`, producing raw validation errors that the repository
  code then sorts and renders.
* Network fetches during `sync_schemas_from_github` are a parameter
  mapping each item name to its outcome (the URL is a function of the
  item name, so this loses no generality).
-/

/-- JSON values, as parsed by `json.loads` (objects keep insertion order,
numbers restricted to integers). -/
inductive Json where
  | str (s : String)
  | num (n : Int)
  | bool (b : Bool)
  | null
  | arr (xs : List Json)
  | obj (fields : List (String × Json))

/-- Lookup in an association list (first binding wins, like `dict` access). -/
def alookup (l : List (String × Json)) (k : String) : Option Json :=
  match l with
  | [] => none
  | (k', v) :: rest => if k' == k then some v else alookup rest k

/-- `d[k] = v` on an association list: replace the first binding in place,
or append a new one (Python `dict` assignment keeps the key position). -/
def aset (l : List (String × Json)) (k : String) (v : Json) : List (String × Json) :=
  match l with
  | [] => [(k, v)]
  | (k', v') :: rest => if k' == k then (k, v) :: rest else (k', v') :: aset rest k v

theorem alookup_aset_self (l : List (String × Json)) (k : String) (v : Json) :
    alookup (aset l k v) k = some v := by
  induction l with
  | nil => simp [aset, alookup]
  | cons hd tl ih =>
    obtain ⟨k', v'⟩ := hd
    by_cases h : k' = k
    · simp [aset, alookup, h]
    · simp [aset, alookup, h, ih]

theorem alookup_aset_other (l : List (String × Json)) (k k₂ : String) (v : Json)
    (h : k₂ ≠ k) : alookup (aset l k v) k₂ = alookup l k₂ := by
  have h' : ¬k = k₂ := fun hh => h hh.symm
  induction l with
  | nil => simp [aset, alookup, h']
  | cons hd tl ih =>
    obtain ⟨k', v'⟩ := hd
    by_cases hk : k' = k
    · subst hk
      simp [aset, alookup, h']
    · by_cases hk2 : k' = k₂
      · simp [aset, alookup, hk, hk2, h]
      · simp [aset, alookup, hk, hk2, ih]

/-- Field access `j[k]` on an object, `none` when the key is absent or the
value is not an object (the latter raises in Python; callers that need the
distinction use `Err`-valued wrappers). -/
def jlookup (j : Json) (k : String) : Option Json :=
  match j with
  | .obj fields => alookup fields k
  | _ => none

/-- ASCII lowercasing of a string, character by character — the behaviour of
Python `str.lower()` on the ASCII data these claims concern. -/
def lowerStr (s : String) : String :=
  ⟨s.data.map Char.toLower⟩

/-- `needle` is a leading left part of `hay` (on character lists). -/
def leadsWith : List Char → List Char → Bool
  | [], _ => true
  | _ :: _, [] => false
  | a :: as, b :: bs => a == b && leadsWith as bs

/-- Substring containment on character lists: Python `needle in hay`. -/
def occursInL (needle hay : List Char) : Bool :=
  match hay with
  | [] => leadsWith needle []
  | _ :: rest => leadsWith needle hay || occursInL needle rest

/-- Substring containment on strings: Python `needle in hay`. -/
def occursIn (needle hay : String) : Bool :=
  occursInL needle.data hay.data

/-- Stable insertion of `x` into `l` under the boolean order `le`: `x` goes
in front of the first element it is not strictly greater than. -/
def insOrd (le : α → α → Bool) (x : α) : List α → List α
  | [] => [x]
  | y :: ys => if le y x && !le x y then y :: insOrd le x ys else x :: y :: ys

/-- Stable insertion sort under the boolean order `le` — the behaviour of
Python `sorted` (a stable sort) for the small lists involved. -/
def isort (le : α → α → Bool) : List α → List α
  | [] => []
  | x :: xs => insOrd le x (isort le xs)

theorem insOrd_perm (le : α → α → Bool) (x : α) (l : List α) :
    List.Perm (insOrd le x l) (x :: l) := by
  induction l with
  | nil => exact List.Perm.refl _
  | cons y ys ih =>
    by_cases h : (le y x && !le x y) = true
    · simp only [insOrd, h, if_true]
      exact ((ih.cons y).trans (List.Perm.swap x y ys))
    · simp [insOrd, h]

theorem isort_perm (le : α → α → Bool) (l : List α) : List.Perm (isort le l) l := by
  induction l with
  | nil => exact List.Perm.refl _
  | cons x xs ih => exact (insOrd_perm le x (isort le xs)).trans (ih.cons x)

/-- A boolean order is total when any two elements compare at least one way. -/
def TotalLe (le : α → α → Bool) : Prop := ∀ a b, le a b = true ∨ le b a = true

/-- A boolean order is transitive. -/
def TransLe (le : α → α → Bool) : Prop :=
  ∀ a b c, le a b = true → le b c = true → le a c = true

theorem insOrd_sorted (le : α → α → Bool) (htot : TotalLe le) (htr : TransLe le)
    (x : α) (l : List α) (hs : l.Pairwise (fun a b => le a b = true)) :
    (insOrd le x l).Pairwise (fun a b => le a b = true) := by
  induction l with
  | nil => simp [insOrd]
  | cons y ys ih =>
    rcases List.pairwise_cons.mp hs with ⟨hy, hys⟩
    by_cases h : (le y x && !le x y) = true
    · simp only [insOrd, h, if_true]
      refine List.pairwise_cons.mpr ⟨?_, ih hys⟩
      intro z hz
      rcases List.mem_cons.mp ((insOrd_perm le x ys).mem_iff.mp hz) with hzx | hzys
      · subst hzx
        have hh := h
        simp only [Bool.and_eq_true] at hh
        exact hh.1
      · exact hy z hzys
    · simp only [insOrd, h, if_false]
      refine List.pairwise_cons.mpr ⟨?_, hs⟩
      have hxy : le x y = true := by
        cases h2 : le x y with
        | true => rfl
        | false =>
          cases h1 : le y x with
          | true => exact absurd (by simp [h1, h2]) h
          | false => rcases htot x y with h3 | h3 <;> simp_all
      intro z hz
      rcases List.mem_cons.mp hz with hzy | hzys
      · subst hzy; exact hxy
      · exact htr x y z hxy (hy z hzys)

theorem isort_sorted (le : α → α → Bool) (htot : TotalLe le) (htr : TransLe le)
    (l : List α) : (isort le l).Pairwise (fun a b => le a b = true) := by
  induction l with
  | nil => simp [isort]
  | cons x xs ih => exact insOrd_sorted le htot htr x (isort le xs) ih

/-- Strict lexicographic order on lists from a strict boolean order on
elements (how Python compares lists and strings). -/
def lexLt (lt : α → α → Bool) : List α → List α → Bool
  | [], [] => false
  | [], _ :: _ => true
  | _ :: _, [] => false
  | a :: as, b :: bs => if lt a b then true else if lt b a then false else lexLt lt as bs

/-- Non-strict lexicographic order on lists from a strict boolean order. -/
def lexLe (lt : α → α → Bool) : List α → List α → Bool
  | [], _ => true
  | _ :: _, [] => false
  | a :: as, b :: bs => if lt a b then true else if lt b a then false else lexLe lt as bs

/-- A strict boolean order is asymmetric. -/
def LtAsymm (lt : α → α → Bool) : Prop := ∀ a b, lt a b = true → lt b a = false

/-- Two-sided failure of a strict boolean order forces equality. -/
def LtTieEq (lt : α → α → Bool) : Prop :=
  ∀ a b, lt a b = false → lt b a = false → a = b

/-- A strict boolean order is transitive. -/
def LtTrans (lt : α → α → Bool) : Prop :=
  ∀ a b c, lt a b = true → lt b c = true → lt a c = true

theorem lexLt_asymm (lt : α → α → Bool) (ha : LtAsymm lt) :
    LtAsymm (lexLt lt) := by
  intro x
  induction x with
  | nil => intro y h; cases y with
    | nil => rfl
    | cons b bs => rfl
  | cons a as ih =>
    intro y h
    cases y with
    | nil => simp [lexLt] at h
    | cons b bs =>
      by_cases h1 : lt a b = true
      · simp [lexLt, ha a b h1, h1]
      · by_cases h2 : lt b a = true
        · simp [lexLt, h1, h2] at h
        · simp only [lexLt, h1, h2, if_false] at h ⊢
          exact ih bs h

theorem lexLt_tieEq (lt : α → α → Bool) (hte : LtTieEq lt) :
    LtTieEq (lexLt lt) := by
  intro x
  induction x with
  | nil => intro y h1 h2; cases y with
    | nil => rfl
    | cons b bs => simp [lexLt] at h1
  | cons a as ih =>
    intro y h1 h2
    cases y with
    | nil => simp [lexLt] at h2
    | cons b bs =>
      by_cases hab : lt a b = true
      · simp [lexLt, hab] at h1
      · by_cases hba : lt b a = true
        · simp [lexLt, hba] at h2
        · have he : a = b := hte a b (by simp [hab]) (by simp [hba])
          subst he
          simp only [lexLt, hab, if_false] at h1 h2
          rw [ih bs h1 h2]

theorem lexLt_trans (lt : α → α → Bool) (hte : LtTieEq lt) (htr : LtTrans lt) :
    LtTrans (lexLt lt) := by
  intro x
  induction x with
  | nil => intro y z h1 h2; cases y with
    | nil => exact h2
    | cons b bs =>
      cases z with
      | nil => simp [lexLt] at h2
      | cons c cs => rfl
  | cons a as ih =>
    intro y z h1 h2
    cases y with
    | nil => simp [lexLt] at h1
    | cons b bs =>
      cases z with
      | nil => simp [lexLt] at h2
      | cons c cs =>
        by_cases hab : lt a b = true
        · by_cases hbc : lt b c = true
          · simp [lexLt, htr a b c hab hbc]
          · by_cases hcb : lt c b = true
            · simp [lexLt, hbc, hcb] at h2
            · have he : b = c := hte b c (by simp [hbc]) (by simp [hcb])
              subst he
              simp [lexLt, hab]
        · by_cases hba : lt b a = true
          · simp [lexLt, hab, hba] at h1
          · have he : a = b := hte a b (by simp [hab]) (by simp [hba])
            subst he
            simp only [lexLt, hab, if_false] at h1 ⊢
            by_cases hac : lt a c = true
            · simp [hac]
            · by_cases hca : lt c a = true
              · simp [lexLt, hac, hca] at h2
              · simp only [lexLt, hac, hca, if_false] at h2 ⊢
                exact ih bs cs h1 h2

theorem lexLe_total (lt : α → α → Bool) : TotalLe (lexLe lt) := by
  intro x
  induction x with
  | nil => intro y; left; cases y <;> rfl
  | cons a as ih =>
    intro y
    cases y with
    | nil => right; rfl
    | cons b bs =>
      by_cases h1 : lt a b = true
      · left; simp [lexLe, h1]
      · by_cases h2 : lt b a = true
        · right; simp [lexLe, h2]
        · rcases ih bs with h | h
          · left; simp [lexLe, h1, h2, h]
          · right; simp [lexLe, h1, h2, h]

theorem lexLe_trans (lt : α → α → Bool) (hte : LtTieEq lt) (htr : LtTrans lt) :
    TransLe (lexLe lt) := by
  intro x
  induction x with
  | nil => intro y z h1 h2; cases z <;> rfl
  | cons a as ih =>
    intro y z h1 h2
    cases y with
    | nil => simp [lexLe] at h1
    | cons b bs =>
      cases z with
      | nil => simp [lexLe] at h2
      | cons c cs =>
        by_cases hab : lt a b = true
        · by_cases hbc : lt b c = true
          · simp [lexLe, htr a b c hab hbc]
          · by_cases hcb : lt c b = true
            · simp [lexLe, hbc, hcb] at h2
            · have he : b = c := hte b c (by simp [hbc]) (by simp [hcb])
              subst he
              simp [lexLe, hab]
        · by_cases hba : lt b a = true
          · simp [lexLe, hab, hba] at h1
          · have he : a = b := hte a b (by simp [hab]) (by simp [hba])
            subst he
            simp only [lexLe, hab, if_false] at h1 ⊢
            by_cases hac : lt a c = true
            · simp [hac]
            · by_cases hca : lt c a = true
              · simp [lexLe, hac, hca] at h2
              · simp only [lexLe, hac, hca, if_false] at h2 ⊢
                exact ih bs cs h1 h2

theorem lexLe_antisym (lt : α → α → Bool) (ha : LtAsymm lt) (hte : LtTieEq lt) :
    ∀ x y, lexLe lt x y = true → lexLe lt y x = true → x = y := by
  intro x
  induction x with
  | nil => intro y h1 h2; cases y with
    | nil => rfl
    | cons b bs => simp [lexLe] at h2
  | cons a as ih =>
    intro y h1 h2
    cases y with
    | nil => simp [lexLe] at h1
    | cons b bs =>
      by_cases hab : lt a b = true
      · simp [lexLe, ha a b hab, hab] at h2
      · by_cases hba : lt b a = true
        · simp [lexLe, hab, hba] at h1
        · have he : a = b := hte a b (by simp [hab]) (by simp [hba])
          subst he
          simp only [lexLe, hab, if_false] at h1 h2
          rw [ih bs h1 h2]

/-- Strict order on characters by code point, as Python compares them. -/
def charLtB (a b : Char) : Bool := decide (a.val.toNat < b.val.toNat)

theorem charLtB_asymm : LtAsymm charLtB := by
  intro a b h
  simp only [charLtB, decide_eq_true_eq] at h
  simp only [charLtB, decide_eq_false_iff_not]
  omega

theorem charLtB_tieEq : LtTieEq charLtB := by
  intro a b h1 h2
  simp only [charLtB, decide_eq_false_iff_not] at h1 h2
  have hv : a.val = b.val := UInt32.ext (by omega)
  exact Char.ext hv

theorem charLtB_trans : LtTrans charLtB := by
  intro a b c h1 h2
  simp only [charLtB, decide_eq_true_eq] at h1 h2 ⊢
  omega

/-- Non-strict order on strings by code-point sequence: Python `str` `<=`,
the key order used by `sorted` on names. -/
def strLeB (a b : String) : Bool := lexLe charLtB a.data b.data

/-- Strict order on strings by code-point sequence. -/
def strLtB (a b : String) : Bool := lexLt charLtB a.data b.data

/-- Sorting a list of names the way Python `sorted` does. -/
def sortStrs (l : List String) : List String := isort strLeB l

/-- Python exceptions the catalog engine can raise. -/
inductive Err where
  | fileNotFound (msg : String)
  | keyError (k : String)
  | typeError (msg : String)
  | attrError (msg : String)
deriving DecidableEq

/-- Process-wide catalog state: the two in-memory caches (`_SCHEMA_CACHE`,
`_REFERENCE_CACHE`), the two durable-storage directories (one parsed JSON
document per file stem), and `_last_sync`. -/
structure Store where
  schemaCache : List (String × Json)
  schemaDisk : List (String × Json)
  refCache : List (String × Json)
  refDisk : List (String × Json)
  lastSync : Option String

/-- `_get_schema`: return the cached schema, loading it from disk (and
caching it) on first access; `FileNotFoundError` when the name is in
neither the cache nor the schema directory. -/
def getSchemaSt (st : Store) (name : String) : Except Err (Json × Store) :=
  match alookup st.schemaCache name with
  | some s => .ok (s, st)
  | none =>
    match alookup st.schemaDisk name with
    | some s =>
      .ok (s, { st with schemaCache := aset st.schemaCache name s })
    | none => .error (.fileNotFound s!"Schema not found: {name}")

/-- `_get_reference`: same contract for reference datasets. -/
def getReferenceSt (st : Store) (name : String) : Except Err (Json × Store) :=
  match alookup st.refCache name with
  | some s => .ok (s, st)
  | none =>
    match alookup st.refDisk name with
    | some s =>
      .ok (s, { st with refCache := aset st.refCache name s })
    | none => .error (.fileNotFound s!"Reference data not found: {name}")

/-- The value `_get_schema` observes for a name, cache first, then disk. -/
def readSchema (st : Store) (name : String) : Option Json :=
  (alookup st.schemaCache name).orElse fun _ => alookup st.schemaDisk name

/-- The value `_get_reference` observes for a name. -/
def readRef (st : Store) (name : String) : Option Json :=
  (alookup st.refCache name).orElse fun _ => alookup st.refDisk name

/-- `_all_schema_names`: the sorted file stems of the schema directory. -/
def all_schema_names (st : Store) : List String :=
  sortStrs (st.schemaDisk.map Prod.fst)

/-- `_all_reference_names`: the sorted file stems of the reference directory. -/
def all_reference_names (st : Store) : List String :=
  sortStrs (st.refDisk.map Prod.fst)

theorem getSchemaSt_ok_of_read (st : Store) (name : String) (s : Json)
    (h : readSchema st name = some s) :
    ∃ st', getSchemaSt st name = .ok (s, st') := by
  unfold readSchema at h
  unfold getSchemaSt
  cases hc : alookup st.schemaCache name with
  | some v =>
    simp [hc, Option.orElse] at h
    subst h
    exact ⟨st, rfl⟩
  | none =>
    simp [hc, Option.orElse] at h
    simp [h]

theorem getSchemaSt_err_of_read (st : Store) (name : String)
    (h : readSchema st name = none) :
    getSchemaSt st name = .error (.fileNotFound s!"Schema not found: {name}") := by
  unfold readSchema at h
  unfold getSchemaSt
  cases hc : alookup st.schemaCache name with
  | some v => simp [hc, Option.orElse] at h
  | none =>
    simp [hc, Option.orElse] at h
    simp [h]

/-- A successful `_get_schema` access only fills the cache: every later
read, of any name, sees the same value, and the disk directories and the
reference side are untouched. -/
theorem getSchemaSt_preserves (st : Store) (name : String) (s : Json) (st' : Store)
    (h : getSchemaSt st name = .ok (s, st')) :
    readSchema st name = some s ∧
    (∀ m, readSchema st' m = readSchema st m) ∧
    st'.schemaDisk = st.schemaDisk ∧
    st'.refCache = st.refCache ∧
    st'.refDisk = st.refDisk ∧
    st'.lastSync = st.lastSync := by
  unfold getSchemaSt at h
  cases hc : alookup st.schemaCache name with
  | some v =>
    rw [hc] at h
    simp at h
    obtain ⟨hs, hst⟩ := h
    subst hs; subst hst
    refine ⟨?_, fun m => rfl, rfl, rfl, rfl, rfl⟩
    simp [readSchema, hc, Option.orElse]
  | none =>
    rw [hc] at h
    cases hd : alookup st.schemaDisk name with
    | some v =>
      rw [hd] at h
      simp at h
      obtain ⟨hs, hst⟩ := h
      subst hs
      constructor
      · simp [readSchema, hc, hd, Option.orElse]
      refine ⟨?_, by rw [← hst], by rw [← hst], by rw [← hst], by rw [← hst]⟩
      intro m
      rw [← hst]
      by_cases hm : m = name
      · subst hm
        simp [readSchema, alookup_aset_self, hc, hd, Option.orElse]
      · simp [readSchema, alookup_aset_other st.schemaCache name m v hm]
    | none => rw [hd] at h; cases h

theorem getReferenceSt_ok_of_read (st : Store) (name : String) (s : Json)
    (h : readRef st name = some s) :
    ∃ st', getReferenceSt st name = .ok (s, st') := by
  unfold readRef at h
  unfold getReferenceSt
  cases hc : alookup st.refCache name with
  | some v =>
    simp [hc, Option.orElse] at h
    subst h
    exact ⟨st, rfl⟩
  | none =>
    simp [hc, Option.orElse] at h
    simp [h]

theorem getReferenceSt_preserves (st : Store) (name : String) (s : Json) (st' : Store)
    (h : getReferenceSt st name = .ok (s, st')) :
    readRef st name = some s ∧
    (∀ m, readRef st' m = readRef st m) ∧
    st'.refDisk = st.refDisk ∧
    st'.schemaCache = st.schemaCache ∧
    st'.schemaDisk = st.schemaDisk ∧
    st'.lastSync = st.lastSync := by
  unfold getReferenceSt at h
  cases hc : alookup st.refCache name with
  | some v =>
    rw [hc] at h
    simp at h
    obtain ⟨hs, hst⟩ := h
    subst hs; subst hst
    refine ⟨?_, fun m => rfl, rfl, rfl, rfl, rfl⟩
    simp [readRef, hc, Option.orElse]
  | none =>
    rw [hc] at h
    cases hd : alookup st.refDisk name with
    | some v =>
      rw [hd] at h
      simp at h
      obtain ⟨hs, hst⟩ := h
      subst hs
      constructor
      · simp [readRef, hc, hd, Option.orElse]
      refine ⟨?_, by rw [← hst], by rw [← hst], by rw [← hst], by rw [← hst]⟩
      intro m
      rw [← hst]
      by_cases hm : m = name
      · subst hm
        simp [readRef, alookup_aset_self, hc, hd, Option.orElse]
      · simp [readRef, alookup_aset_other st.refCache name m v hm]
    | none => rw [hd] at h; cases h

/-- Outcome of one upstream fetch during refresh: parsed JSON on a success
status, or a non-success HTTP status, or a raised exception (transport
failure or JSON parse error, both caught by the same handler). -/
inductive FetchRes where
  | ok (data : Json)
  | httpFail (status : Nat)
  | exc (msg : String)

/-- Whether a fetch outcome takes the success branch of the loop body. -/
def FetchRes.succ : FetchRes → Bool
  | .ok _ => true
  | _ => false

/-- `_GITHUB_SCHEMA_FILES`, in source order. -/
def githubSchemaFiles : List String :=
  ["strain", "terpene-profile", "cannabinoid-profile", "terpene",
   "coa", "rating", "rating-aggregate"]

/-- The keys of `_GITHUB_REFERENCE_MAP` in insertion order (Python dicts
iterate in insertion order); the per-item URL is a function of the key, so
the fetch outcome is parameterised by the key alone. -/
def githubReferenceNames : List String :=
  ["terpene-library", "cannabinoid-library", "terpene-colors",
   "terpene-library-extended", "terpene-therapeutics",
   "cannabinoid-therapeutics"]

/-- One per-item loop of `sync_schemas_from_github` over `items`: a
successful fetch stores the document in the cache and writes it to disk and
is counted; a failed fetch appends an error string naming the item and
leaves both maps untouched; the loop always continues to the next item.
Returns (count of updates, error strings in item order, cache, disk). -/
def syncItems (fetch : String → FetchRes) (label : String) :
    List String → List (String × Json) → List (String × Json) →
    Nat × List String × List (String × Json) × List (String × Json)
  | [], cache, disk => (0, [], cache, disk)
  | n :: rest, cache, disk =>
    match fetch n with
    | .ok d =>
      let r := syncItems fetch label rest (aset cache n d) (aset disk n d)
      (r.1 + 1, r.2.1, r.2.2)
    | .httpFail code =>
      let r := syncItems fetch label rest cache disk
      (r.1, (s!"{label} {n}: HTTP {code}") :: r.2.1, r.2.2)
    | .exc msg =>
      let r := syncItems fetch label rest cache disk
      (r.1, (s!"{label} {n}: {msg}") :: r.2.1, r.2.2)

/-- The summary dictionary returned by `sync_schemas_from_github`. -/
structure Summary where
  schemas_updated : Nat
  references_updated : Nat
  errors : List String
  synced_at : String

/-- `sync_schemas_from_github`. `clientFail` models the outer exception
handler (an HTTP client that cannot even be constructed); `now` is the
completion timestamp `datetime.now(tz=UTC).isoformat()`. `_last_sync` is
set unconditionally, after both loops, whatever failed. -/
def sync_schemas_from_github (clientFail : Option String)
    (fetchSchema fetchRef : String → FetchRes) (now : String) (st : Store) :
    Summary × Store :=
  match clientFail with
  | some msg =>
    ({ schemas_updated := 0, references_updated := 0,
       errors := [s!"GitHub sync failed: {msg}"], synced_at := now },
     { st with lastSync := some now })
  | none =>
    let rs := syncItems fetchSchema "Schema" githubSchemaFiles
      st.schemaCache st.schemaDisk
    let rr := syncItems fetchRef "Reference" githubReferenceNames
      st.refCache st.refDisk
    ({ schemas_updated := rs.1, references_updated := rr.1,
       errors := rs.2.1 ++ rr.2.1, synced_at := now },
     { schemaCache := rs.2.2.1, schemaDisk := rs.2.2.2,
       refCache := rr.2.2.1, refDisk := rr.2.2.2, lastSync := some now })

/-- Number of items whose fetch succeeds (what the loop counts). -/
def countOk (fetch : String → FetchRes) : List String → Nat
  | [] => 0
  | n :: rest => (if (fetch n).succ then 1 else 0) + countOk fetch rest

/-- The error string the loop records for one failing item. -/
def itemError (fetch : String → FetchRes) (label n : String) : Option String :=
  match fetch n with
  | .ok _ => none
  | .httpFail code => some s!"{label} {n}: HTTP {code}"
  | .exc msg => some s!"{label} {n}: {msg}"

/-- The error strings the loop records, in item order. -/
def itemErrors (fetch : String → FetchRes) (label : String)
    (items : List String) : List String :=
  items.filterMap (itemError fetch label)

theorem syncItems_count (fetch : String → FetchRes) (label : String)
    (items : List String) (cache disk : List (String × Json)) :
    (syncItems fetch label items cache disk).1 = countOk fetch items := by
  induction items generalizing cache disk with
  | nil => rfl
  | cons n rest ih =>
    cases h : fetch n <;>
      simp [syncItems, countOk, h, FetchRes.succ, ih, Nat.add_comm]

theorem syncItems_errors (fetch : String → FetchRes) (label : String)
    (items : List String) (cache disk : List (String × Json)) :
    (syncItems fetch label items cache disk).2.1 = itemErrors fetch label items := by
  induction items generalizing cache disk with
  | nil => rfl
  | cons n rest ih =>
    cases h : fetch n <;>
      simp [syncItems, itemErrors, itemError, h, ih]

/-- Frame property of the loop: an item whose fetch fails keeps its cache
binding and its on-disk file exactly as they were, whatever happens to the
other items. -/
theorem syncItems_frame (fetch : String → FetchRes) (label : String)
    (items : List String) (cache disk : List (String × Json)) (n : String)
    (hf : (fetch n).succ = false) :
    alookup (syncItems fetch label items cache disk).2.2.1 n = alookup cache n ∧
    alookup (syncItems fetch label items cache disk).2.2.2 n = alookup disk n := by
  induction items generalizing cache disk with
  | nil => exact ⟨rfl, rfl⟩
  | cons m rest ih =>
    cases h : fetch m with
    | ok d =>
      have hmn : n ≠ m := by
        intro he; subst he; rw [h] at hf; cases hf
      have := ih (aset cache m d) (aset disk m d)
      simp only [syncItems, h]
      exact ⟨by rw [this.1, alookup_aset_other cache m n d hmn],
             by rw [this.2, alookup_aset_other disk m n d hmn]⟩
    | httpFail code => simpa [syncItems, h] using ih cache disk
    | exc msg => simpa [syncItems, h] using ih cache disk

/-- When every fetch in `items` fails the loop is a no-op on both maps and
counts nothing. -/
theorem syncItems_allFail (fetch : String → FetchRes) (label : String)
    (items : List String) (cache disk : List (String × Json))
    (hf : ∀ n ∈ items, (fetch n).succ = false) :
    syncItems fetch label items cache disk =
      (0, itemErrors fetch label items, cache, disk) := by
  induction items generalizing cache disk with
  | nil => rfl
  | cons m rest ih =>
    have hm := hf m (List.mem_cons_self m rest)
    have hrest : ∀ n ∈ rest, (fetch n).succ = false :=
      fun n hn => hf n (List.mem_cons_of_mem m hn)
    cases h : fetch m with
    | ok d => rw [h] at hm; cases hm
    | httpFail code =>
      simp [syncItems, h, ih cache disk hrest, itemErrors, itemError]
    | exc msg =>
      simp [syncItems, h, ih cache disk hrest, itemErrors, itemError]

/-- One segment of a validation error path: an array index or an object
property name (`jsonschema` uses `int` and `str` path elements). -/
inductive Seg where
  | idx (n : Nat)
  | key (s : String)
deriving DecidableEq

/-- Strict order on path segments, as Python compares list elements.
Comparing an `int` to a `str` raises `TypeError` in Python; two error paths
that agree on a proper leading part index the same instance value — a list
or an object, never both — so the mixed case cannot arise between paths
into one document, and the model totalises it (indices before keys). -/
def segLtB : Seg → Seg → Bool
  | .idx a, .idx b => decide (a < b)
  | .key a, .key b => strLtB a b
  | .idx _, .key _ => true
  | .key _, .idx _ => false

theorem strLtB_tieEq (a b : String) (h1 : strLtB a b = false)
    (h2 : strLtB b a = false) : a = b := by
  have hd : a.data = b.data := lexLt_tieEq charLtB charLtB_tieEq a.data b.data h1 h2
  cases a; cases b; exact congrArg String.mk hd

theorem segLtB_asymm : LtAsymm segLtB := by
  intro a b h
  cases a with
  | idx n =>
    cases b with
    | idx m =>
      simp only [segLtB, decide_eq_true_eq] at h
      simp only [segLtB, decide_eq_false_iff_not]
      omega
    | key s => rfl
  | key s =>
    cases b with
    | idx m => cases h
    | key t => exact lexLt_asymm charLtB charLtB_asymm s.data t.data h

theorem segLtB_tieEq : LtTieEq segLtB := by
  intro a b h1 h2
  cases a with
  | idx n =>
    cases b with
    | idx m =>
      simp only [segLtB, decide_eq_false_iff_not] at h1 h2
      have : n = m := by omega
      rw [this]
    | key s => cases h1
  | key s =>
    cases b with
    | idx m => cases h2
    | key t => rw [strLtB_tieEq s t h1 h2]

theorem segLtB_trans : LtTrans segLtB := by
  intro a b c h1 h2
  cases a with
  | idx n =>
    cases b with
    | idx m =>
      cases c with
      | idx p =>
        simp only [segLtB, decide_eq_true_eq] at h1 h2 ⊢
        omega
      | key t => rfl
    | key s =>
      cases c with
      | idx p => cases h2
      | key t => rfl
  | key s =>
    cases b with
    | idx m => cases h1
    | key t =>
      cases c with
      | idx p => cases h2
      | key u => exact lexLt_trans charLtB charLtB_tieEq charLtB_trans s.data t.data u.data h1 h2

/-- Non-strict lexicographic order on error paths: the `sorted` key order
`list(e.absolute_path)` in `validate_data`. -/
def pathLeB (a b : List Seg) : Bool := lexLe segLtB a b

/-- One raw validation error as produced by the third-party validator:
instance path, message, schema path. -/
structure VErr where
  absolutePath : List Seg
  message : String
  absoluteSchemaPath : List Seg
deriving DecidableEq

/-- The `sorted(validator.iter_errors(data), key=lambda e:
list(e.absolute_path))` step: a stable sort by instance path alone. -/
def sortErrs (es : List VErr) : List VErr :=
  isort (fun a b => pathLeB a.absolutePath b.absolutePath) es

/-- A rendered error entry of the returned JSON. -/
structure RenderedErr where
  path : String
  message : String
  schemaPath : String
deriving DecidableEq

/-- `str(p)` for a path element. -/
def renderSeg : Seg → String
  | .idx n => toString n
  | .key s => s

/-- `".".join(parts)`. -/
def joinDot : List String → String
  | [] => ""
  | [x] => x
  | x :: y :: rest => x ++ "." ++ joinDot (y :: rest)

/-- Rendering of one error: `".".join(...) or "(root)"` falls back to
`"(root)"` exactly when the joined string is empty. -/
def renderErr (e : VErr) : RenderedErr :=
  let p := joinDot (e.absolutePath.map renderSeg)
  { path := if p == "" then "(root)" else p,
    message := e.message,
    schemaPath := joinDot (e.absoluteSchemaPath.map renderSeg) }

/-- The whole error post-processing of `validate_data`: sort by instance
path, then render each error. -/
def processErrors (es : List VErr) : List RenderedErr :=
  (sortErrs es).map renderErr

/-- Python `k in s`: key membership on a dict, substring test on a string,
element equality on a list; `TypeError` on numbers, booleans and `None`,
which are not iterable. -/
def pyContains (s : Json) (k : String) : Except Err Bool :=
  match s with
  | .obj fields => .ok (alookup fields k).isSome
  | .str t => .ok (occursIn k t)
  | .arr xs => .ok (xs.any fun x =>
      match x with
      | .str t => t == k
      | _ => false)
  | _ => .error (.typeError "not iterable")

/-- One item of the registry loop:
`if "$id" in s: resources.append((s["$id"], Resource.from_contents(s)))`.
The membership test raises `TypeError` on non-iterable documents; the
subscript raises `TypeError` on the strings and lists that pass it. -/
def resStep (s : Json) : Except Err (Option (Json × Json)) :=
  match pyContains s "$id" with
  | .error e => .error e
  | .ok false => .ok none
  | .ok true =>
    match s with
    | .obj fields =>
      match alookup fields "$id" with
      | some u => .ok (some (u, s))
      | none => .ok none
    | _ => .error (.typeError "subscript")

/-- The registry-building loop of `validate_data`: for every schema name on
disk (in sorted order) load the current document and run the `$id` step,
propagating any exception it raises. -/
def buildResourcesSt : List String → Store → Except Err (List (Json × Json) × Store)
  | [], st => .ok ([], st)
  | n :: rest, st =>
    match getSchemaSt st n with
    | .error e => .error e
    | .ok (s, st1) =>
      match resStep s with
      | .error e => .error e
      | .ok entry =>
        match buildResourcesSt rest st1 with
        | .error e => .error e
        | .ok (res, st2) =>
          match entry with
          | some p => .ok (p :: res, st2)
          | none => .ok (res, st2)

/-- The registry pair one schema name contributes when the document is a
JSON object: the current document, kept when it declares an `$id`. A pure
mirror of `resStep` on its object branch only — used in statements gated by
the hypothesis that every stored schema document is an object, since on
other documents the program raises rather than omitting. -/
def resEntry (st : Store) (n : String) : Option (Json × Json) :=
  match readSchema st n with
  | some s => (jlookup s "$id").map fun u => (u, s)
  | none => none

/-- Values on which Python `in` raises `TypeError` (not iterable). -/
def nonIterable : Json → Bool
  | .num _ => true
  | .bool _ => true
  | .null => true
  | _ => false

theorem resStep_obj (fields : List (String × Json)) :
    resStep (Json.obj fields) =
      .ok ((alookup fields "$id").map fun u => (u, Json.obj fields)) := by
  cases hl : alookup fields "$id" with
  | none => simp [resStep, pyContains, hl]
  | some u => simp [resStep, pyContains, hl]

theorem resStep_err_of_nonIterable (s : Json) (h : nonIterable s = true) :
    resStep s = .error (.typeError "not iterable") := by
  cases s <;> simp_all [nonIterable, resStep, pyContains]

/-- Registry contents contributed by a list of names, in order. -/
def resOf (names : List String) (st : Store) : List (Json × Json) :=
  names.filterMap (resEntry st)

/-- The resolution context as a pure function of the current store: one
entry per stored schema that declares an `$id`, in sorted-name order. -/
def pureResources (st : Store) : List (Json × Json) :=
  resOf (all_schema_names st) st

/-- The result object of `validate_data`. -/
structure VResult where
  valid : Bool
  schemaName : String
  errorCount : Nat
  errors : List RenderedErr
deriving DecidableEq

/-- `validate_data(schema_name, data)`. `ie` stands for
`Draft202012Validator(schema, registry=...).iter_errors(data)` — the
third-party draft 2020-12 checker, a parameter of the model — receiving the
schema, the instance and the registry contents. -/
def validate_data (ie : Json → Json → List (Json × Json) → List VErr)
    (st : Store) (schema_name : String) (data : Json) :
    Except Err (VResult × Store) :=
  match getSchemaSt st schema_name with
  | .error e => .error e
  | .ok (schema, st1) =>
    match buildResourcesSt (all_schema_names st1) st1 with
    | .error e => .error e
    | .ok (resources, st2) =>
      let errs := processErrors (ie schema data resources)
      .ok ({ valid := errs.length == 0, schemaName := schema_name,
             errorCount := errs.length, errors := errs }, st2)

theorem alookup_isSome_of_mem_keys (l : List (String × Json)) (n : String)
    (h : n ∈ l.map Prod.fst) : (alookup l n).isSome = true := by
  induction l with
  | nil => cases h
  | cons hd tl ih =>
    obtain ⟨k, v⟩ := hd
    by_cases hk : k = n
    · simp [alookup, hk]
    · simp only [List.map_cons, List.mem_cons] at h
      rcases h with h | h
      · exact absurd h.symm hk
      · simp [alookup, hk, ih h]

theorem mem_sortStrs (l : List String) (n : String) :
    n ∈ sortStrs l ↔ n ∈ l :=
  (isort_perm strLeB l).mem_iff

theorem readSchema_isSome_of_names (st : Store) (n : String)
    (h : n ∈ all_schema_names st) : (readSchema st n).isSome = true := by
  have hk : n ∈ st.schemaDisk.map Prod.fst :=
    (mem_sortStrs (st.schemaDisk.map Prod.fst) n).mp h
  have hd := alookup_isSome_of_mem_keys st.schemaDisk n hk
  unfold readSchema
  cases hc : alookup st.schemaCache n
  · simpa [Option.orElse] using hd
  · simp [Option.orElse, hc]

theorem resOf_congr (names : List String) (st st' : Store)
    (h : ∀ m ∈ names, readSchema st m = readSchema st' m) :
    resOf names st = resOf names st' := by
  induction names with
  | nil => rfl
  | cons n rest ih =>
    have hn := h n (List.mem_cons_self n rest)
    have hrest : ∀ m ∈ rest, readSchema st m = readSchema st' m :=
      fun m hm => h m (List.mem_cons_of_mem n hm)
    have he : resEntry st n = resEntry st' n := by simp [resEntry, hn]
    have ht := ih hrest
    simp only [resOf, List.filterMap_cons] at ht ⊢
    rw [he, ht]

/-- The registry loop succeeds on a list of names that read to JSON-object
documents and produces exactly the pure registry contents, touching only
the schema cache. -/
theorem buildResourcesSt_spec (names : List String) (st : Store)
    (h : ∀ n ∈ names, ∃ fs, readSchema st n = some (Json.obj fs)) :
    ∃ st2, buildResourcesSt names st = .ok (resOf names st, st2) ∧
      (∀ m, readSchema st2 m = readSchema st m) ∧
      st2.schemaDisk = st.schemaDisk ∧
      st2.refCache = st.refCache ∧ st2.refDisk = st.refDisk ∧
      st2.lastSync = st.lastSync := by
  induction names generalizing st with
  | nil => exact ⟨st, rfl, fun m => rfl, rfl, rfl, rfl, rfl⟩
  | cons n rest ih =>
    obtain ⟨fs, hs⟩ := h n (List.mem_cons_self n rest)
    obtain ⟨st1, hg⟩ := getSchemaSt_ok_of_read st n (Json.obj fs) hs
    obtain ⟨_, hpt, hdisk, hrc, hrd, hls⟩ :=
      getSchemaSt_preserves st n (Json.obj fs) st1 hg
    have hrest : ∀ m ∈ rest, ∃ gs, readSchema st1 m = some (Json.obj gs) := by
      intro m hm
      rw [hpt m]
      exact h m (List.mem_cons_of_mem n hm)
    obtain ⟨st2, hb, hpt2, hdisk2, hrc2, hrd2, hls2⟩ := ih st1 hrest
    have hres : resOf rest st1 = resOf rest st :=
      resOf_congr rest st1 st (fun m _ => hpt m)
    have hres2 : List.filterMap (resEntry st1) rest =
        List.filterMap (resEntry st) rest := by
      simpa [resOf] using hres
    refine ⟨st2, ?_, fun m => by rw [hpt2 m, hpt m],
      by rw [hdisk2, hdisk], by rw [hrc2, hrc], by rw [hrd2, hrd],
      by rw [hls2, hls]⟩
    have hentry : resEntry st n =
        (alookup fs "$id").map fun u => (u, Json.obj fs) := by
      simp [resEntry, hs, jlookup]
    cases hid : alookup fs "$id" with
    | some u =>
      simp [buildResourcesSt, hg, resStep_obj, hb, hres2, resOf,
        List.filterMap_cons, hentry, hid]
    | none =>
      simp [buildResourcesSt, hg, resStep_obj, hb, hres2, resOf,
        List.filterMap_cons, hentry, hid]

/-- The registry loop raises when some listed name reads to a non-iterable
document (number, boolean, null), as `"$id" in s` does in Python. -/
theorem buildResourcesSt_err_of_nonIterable (names : List String) (st : Store)
    (hsome : ∀ n ∈ names, (readSchema st n).isSome = true)
    (hbad : ∃ n, n ∈ names ∧ ∃ s, readSchema st n = some s ∧
      nonIterable s = true) :
    ∃ e, buildResourcesSt names st = .error e := by
  induction names generalizing st with
  | nil =>
    obtain ⟨n, hn, _⟩ := hbad
    cases hn
  | cons m rest ih =>
    have hm := hsome m (List.mem_cons_self m rest)
    obtain ⟨s, hs⟩ : ∃ s, readSchema st m = some s := by
      cases hr : readSchema st m with
      | none => rw [hr] at hm; cases hm
      | some v => exact ⟨v, rfl⟩
    obtain ⟨st1, hg⟩ := getSchemaSt_ok_of_read st m s hs
    obtain ⟨_, hpt, _, _, _, _⟩ := getSchemaSt_preserves st m s st1 hg
    cases hrs : resStep s with
    | error e => exact ⟨e, by simp only [buildResourcesSt, hg, hrs]⟩
    | ok entry =>
      have hbad1 : ∃ n, n ∈ rest ∧ ∃ t, readSchema st1 n = some t ∧
          nonIterable t = true := by
        obtain ⟨n, hn, t, ht, hni⟩ := hbad
        rcases List.mem_cons.mp hn with he | he
        · subst he
          rw [hs] at ht
          injection ht with ht
          rw [← ht] at hni
          rw [resStep_err_of_nonIterable s hni] at hrs
          cases hrs
        · exact ⟨n, he, t, by rw [hpt n]; exact ht, hni⟩
      have hsome1 : ∀ n ∈ rest, (readSchema st1 n).isSome = true := by
        intro n hn
        rw [hpt n]
        exact hsome n (List.mem_cons_of_mem m hn)
      obtain ⟨e, he⟩ := ih st1 hsome1 hbad1
      exact ⟨e, by simp only [buildResourcesSt, hg, hrs, he]⟩

/-- Success specification of `validate_data`: when the schema name is
readable and every stored schema document is a JSON object, validation
succeeds and the returned errors are exactly the post-processed output of
the checker run against the schema and the registry built from the catalog
as it stands at the call. -/
theorem validate_data_ok_spec (ie : Json → Json → List (Json × Json) → List VErr)
    (st : Store) (sn : String) (data : Json) (schema : Json)
    (hobj : ∀ n ∈ all_schema_names st, ∃ fs, readSchema st n = some (Json.obj fs))
    (h : readSchema st sn = some schema) :
    ∃ st2, validate_data ie st sn data =
      .ok ({ valid := (processErrors (ie schema data (pureResources st))).length == 0,
             schemaName := sn,
             errorCount := (processErrors (ie schema data (pureResources st))).length,
             errors := processErrors (ie schema data (pureResources st)) }, st2) := by
  obtain ⟨st1, hg⟩ := getSchemaSt_ok_of_read st sn schema h
  obtain ⟨_, hpt, hdisk, _, _, _⟩ := getSchemaSt_preserves st sn schema st1 hg
  have hnames : all_schema_names st1 = all_schema_names st := by
    unfold all_schema_names
    rw [hdisk]
  have hobj1 : ∀ n ∈ all_schema_names st1, ∃ fs, readSchema st1 n = some (Json.obj fs) := by
    intro n hn
    rw [hpt n]
    exact hobj n (hnames ▸ hn)
  obtain ⟨st2, hb, _, _, _, _, _⟩ :=
    buildResourcesSt_spec (all_schema_names st1) st1 hobj1
  have hres : resOf (all_schema_names st1) st1 = pureResources st := by
    rw [hnames]
    unfold pureResources
    exact resOf_congr _ _ _ (fun m _ => hpt m)
  refine ⟨st2, ?_⟩
  simp only [validate_data, hg, hb, hres]

/-- Error specification of `validate_data`: an unknown schema name fails
with the `_get_schema` error, unchanged. -/
theorem validate_data_err_spec (ie : Json → Json → List (Json × Json) → List VErr)
    (st : Store) (sn : String) (data : Json)
    (h : readSchema st sn = none) :
    validate_data ie st sn data =
      .error (.fileNotFound s!"Schema not found: {sn}") := by
  have hg := getSchemaSt_err_of_read st sn h
  simp only [validate_data, hg]

/-- Python truthiness of an optional string argument (`if terpene_id:`):
absent and empty strings are falsy. -/
def pyTruthy : Option String → Bool
  | none => false
  | some s => !(s == "")

/-- How an f-string formats an optional string argument (`None` prints as
`"None"`). -/
def optStr : Option String → String
  | none => "None"
  | some s => s

/-- `t.get(k)`: `AttributeError` when `t` is not a dict. -/
def dictGet (t : Json) (k : String) : Except Err (Option Json) :=
  match t with
  | .obj fields => .ok (alookup fields k)
  | _ => .error (.attrError "get")

/-- `t.get(k, default)`. -/
def dictGetD (t : Json) (k : String) (d : Json) : Except Err Json :=
  match t with
  | .obj fields => .ok ((alookup fields k).getD d)
  | _ => .error (.attrError "get")

/-- `t[k]`: `KeyError` when the key is absent, `TypeError` when `t` is not
a dict. -/
def dictIndex (t : Json) (k : String) : Except Err Json :=
  match t with
  | .obj fields =>
    match alookup fields k with
    | some v => .ok v
    | none => .error (.keyError k)
  | _ => .error (.typeError "subscript")

/-- `v.lower()`: lowercases a string, `AttributeError` otherwise. -/
def strLower (v : Json) : Except Err String :=
  match v with
  | .str s => .ok (lowerStr s)
  | _ => .error (.attrError "lower")

/-- `x == s` where `x` is `t.get("id")` and `s` a query string: true only
for that exact string value. -/
def jEqStr (v : Option Json) (s : String) : Bool :=
  match v with
  | some (.str t) => t == s
  | _ => false

/-- Python iteration of a value: the elements of a list, the one-character
strings of a string, the keys of a dict; numbers, booleans and `None` are
not iterable and raise `TypeError`. -/
def pyIter (v : Json) : Except Err (List Json) :=
  match v with
  | .arr xs => .ok xs
  | .str s => .ok (s.data.map fun c => Json.str (String.singleton c))
  | .obj fields => .ok (fields.map fun kv => Json.str kv.1)
  | _ => .error (.typeError "not iterable")

/-- `lib.get(k, [])` followed by iterating the value, as the loops do:
`AttributeError` when the dataset is not a dict, `[]` when the key is
absent, otherwise Python iteration of the value. -/
def jRecordsE (lib : Json) (k : String) : Except Err (List Json) :=
  match lib with
  | .obj fields =>
    match alookup fields k with
    | some v => pyIter v
    | none => .ok []
  | _ => .error (.attrError "get")

/-- The dataset is a dict whose collection at `k`, when present, is an
array — the region on which `jRecords` below agrees with `jRecordsE`. -/
def wfDataset (lib : Json) (k : String) : Bool :=
  match lib with
  | .obj fields =>
    match alookup fields k with
    | some (.arr _) => true
    | none => true
    | some _ => false
  | _ => false

/-- Pure projection of a well-formed dataset's record list: the entries
when the collection is an array, `[]` when it is absent. Used only in
theorem statements whose hypotheses confine it to `wfDataset` (or to a
non-empty result, which implies it); the embeddings themselves run
`jRecordsE`, which raises as the source does. -/
def jRecords (lib : Json) (k : String) : List Json :=
  match jlookup lib k with
  | some (.arr xs) => xs
  | _ => []

theorem jRecordsE_wf (lib : Json) (k : String) (h : wfDataset lib k = true) :
    jRecordsE lib k = .ok (jRecords lib k) := by
  cases lib with
  | obj fields =>
    dsimp only [wfDataset] at h
    dsimp only [jRecordsE, jRecords, jlookup]
    cases hl : alookup fields k with
    | none => simp [hl]
    | some v =>
      rw [hl] at h
      cases v <;> simp_all [pyIter]
  | str s => simp [wfDataset] at h
  | num n => simp [wfDataset] at h
  | bool b => simp [wfDataset] at h
  | null => simp [wfDataset] at h
  | arr xs => simp [wfDataset] at h

theorem wfDataset_of_records_ne_nil (lib : Json) (k : String)
    (h : jRecords lib k ≠ []) : wfDataset lib k = true := by
  cases lib with
  | obj fields =>
    dsimp only [jRecords, jlookup] at h
    dsimp only [wfDataset]
    cases hl : alookup fields k with
    | none => rfl
    | some v =>
      rw [hl] at h
      cases v <;> simp_all
  | str s => simp [jRecords, jlookup] at h
  | num n => simp [jRecords, jlookup] at h
  | bool b => simp [jRecords, jlookup] at h
  | null => simp [jRecords, jlookup] at h
  | arr xs => simp [jRecords, jlookup] at h

/-- `if terpene_id and t.get("id") == terpene_id:` for one record. -/
def idHit (tid : Option String) (t : Json) : Except Err Bool :=
  if pyTruthy tid then do
    let v ← dictGet t "id"
    pure (jEqStr v (optStr tid))
  else pure false

/-- `if name and t.get(field, "").lower() == name.lower():` for one
record. -/
def nameHit (field : String) (nm : Option String) (t : Json) : Except Err Bool :=
  if pyTruthy nm then do
    let v ← dictGetD t field (.str "")
    let lv ← strLower v
    pure (lv == lowerStr (optStr nm))
  else pure false

/-- The two checks of the `get_terpene_info` loop body, in source order. -/
def terpMatchE (tid nm : Option String) (t : Json) : Except Err Bool := do
  let h1 ← idHit tid t
  if h1 then pure true else nameHit "name" nm t

/-- The `get_cannabinoid_info` loop body: id check, then name or fullName
(the `or` short-circuits). -/
def canMatchE (cid nm : Option String) (c : Json) : Except Err Bool := do
  let h1 ← idHit cid c
  if h1 then pure true
  else if pyTruthy nm then do
    let v1 ← dictGetD c "name" (.str "")
    let l1 ← strLower v1
    if l1 == lowerStr (optStr nm) then pure true
    else do
      let v2 ← dictGetD c "fullName" (.str "")
      let l2 ← strLower v2
      pure (l2 == lowerStr (optStr nm))
  else pure false

/-- The `lookup_terpene_color` loop body:
`entry.get("terpene", "").lower() == terpene_name.lower()`. -/
def colorMatchE (nm : String) (entry : Json) : Except Err Bool := do
  let v ← dictGetD entry "terpene" (.str "")
  let lv ← strLower v
  pure (lv == lowerStr nm)

/-- A `for`/`return` loop over records: return the first record whose
check holds, propagating any exception the check raises. -/
def findMatchE (p : Json → Except Err Bool) : List Json → Except Err (Option Json)
  | [] => .ok none
  | t :: rest => do
    let b ← p t
    if b then pure (some t) else findMatchE p rest

/-- `[t[field] for t in recs]` — the available-names list of the not-found
path; raises `KeyError` when a record lacks the field. -/
def availList (field : String) : List Json → Except Err (List Json)
  | [] => .ok []
  | t :: rest => do
    let v ← dictIndex t field
    let vs ← availList field rest
    pure (v :: vs)

/-- Python `str()` as used inside the f-strings of the available-names
list. String content is verbatim; container formatting is not modelled
faithfully (no claim depends on it). -/
def pyStr : Json → String
  | .str s => s
  | .num n => toString n
  | .bool true => "True"
  | .bool false => "False"
  | .null => "None"
  | .arr _ => "[...]"
  | .obj _ => "\x7b...\x7d"

/-- One entry of `get_cannabinoid_info`'s available list:
`f"{c['name']} ({c.get('fullName', '')})"`. -/
def canAvailEntry (c : Json) : Except Err Json := do
  let v ← dictIndex c "name"
  let f ← dictGetD c "fullName" (.str "")
  pure (.str (pyStr v ++ " (" ++ pyStr f ++ ")"))

/-- `[f"..." for c in recs]` for the cannabinoid not-found path. -/
def canAvailList : List Json → Except Err (List Json)
  | [] => .ok []
  | c :: rest => do
    let v ← canAvailEntry c
    let vs ← canAvailList rest
    pure (v :: vs)

/-- Result of a record lookup tool: the matched record, or the structured
not-found payload (error message plus every available name). -/
inductive LookupOut where
  | found (record : Json)
  | notFound (error : String) (available : List Json)

/-- `get_terpene_info(terpene_id, name)`. -/
def get_terpene_info (tid nm : Option String) (st : Store) :
    Except Err (LookupOut × Store) := do
  let ⟨lib, st1⟩ ← getReferenceSt st "terpene-library"
  let recs ← jRecordsE lib "terpenes"
  let m ← findMatchE (terpMatchE tid nm) recs
  match m with
  | some t => pure (.found t, st1)
  | none => do
    let av ← availList "name" recs
    pure (.notFound
      s!"Terpene not found. Search: id={optStr tid}, name={optStr nm}" av, st1)

/-- `get_cannabinoid_info(cannabinoid_id, name)`. -/
def get_cannabinoid_info (cid nm : Option String) (st : Store) :
    Except Err (LookupOut × Store) := do
  let ⟨lib, st1⟩ ← getReferenceSt st "cannabinoid-library"
  let recs ← jRecordsE lib "cannabinoids"
  let m ← findMatchE (canMatchE cid nm) recs
  match m with
  | some c => pure (.found c, st1)
  | none => do
    let av ← canAvailList recs
    pure (.notFound
      s!"Cannabinoid not found. Search: id={optStr cid}, name={optStr nm}" av, st1)

/-- `lookup_terpene_color(terpene_name)`. -/
def lookup_terpene_color (nm : String) (st : Store) :
    Except Err (LookupOut × Store) := do
  let ⟨colors, st1⟩ ← getReferenceSt st "terpene-colors"
  let recs ← jRecordsE colors "colors"
  let m ← findMatchE (colorMatchE nm) recs
  match m with
  | some e => pure (.found e, st1)
  | none => do
    let av ← availList "terpene" recs
    pure (.notFound s!"Terpene color not found: {nm}" av, st1)

/-- One character of a JSON string serialised by `json.dumps`: backslash
and double quote are escaped (control-character escapes are not modelled;
no datum in this development contains them). -/
def escapeChar (c : Char) : String :=
  if c == '"' then "\\\"" else if c == '\\' then "\\\\" else String.singleton c

/-- Escaping of a whole string body. -/
def escapeStr : List Char → String
  | [] => ""
  | c :: rest => escapeChar c ++ escapeStr rest

mutual

/-- `json.dumps` with its default separators `", "` and `": "` (integers
only; Python prints them identically). -/
def dumps : Json → String
  | .str s => "\"" ++ escapeStr s.data ++ "\""
  | .num n => toString n
  | .bool true => "true"
  | .bool false => "false"
  | .null => "null"
  | .arr xs => "[" ++ dumpsList xs ++ "]"
  | .obj fs => "\x7b" ++ dumpsFields fs ++ "\x7d"

/-- Array elements, comma-separated. -/
def dumpsList : List Json → String
  | [] => ""
  | [x] => dumps x
  | x :: y :: rest => dumps x ++ ", " ++ dumpsList (y :: rest)

/-- Object members, comma-separated, `"key": value`. -/
def dumpsFields : List (String × Json) → String
  | [] => ""
  | [(k, v)] => "\"" ++ escapeStr k.data ++ "\": " ++ dumps v
  | (k, v) :: f :: rest =>
    "\"" ++ escapeStr k.data ++ "\": " ++ dumps v ++ ", " ++ dumpsFields (f :: rest)

end

/-- `", ".join(parts)`. -/
def joinComma : List String → String
  | [] => ""
  | [x] => x
  | x :: y :: rest => x ++ ", " ++ joinComma (y :: rest)

/-- `_extract_match_context(obj, query)`: the top-level keys whose dumped
value contains the lowercased query, joined into the context string;
`AttributeError` when the record is not a dict. -/
def extract_match_context (t : Json) (query : String) : Except Err String :=
  match t with
  | .obj fields =>
    .ok ("Matched in: " ++ joinComma ((fields.filter fun kv =>
      occursIn (lowerStr query) (lowerStr (dumps kv.2))).map Prod.fst))
  | _ => .error (.attrError "items")

/-- One entry of the search results. -/
structure SearchEntry where
  type : String
  id : Option Json
  name : Option Json
  matchContext : String

/-- The result object of `search_reference_data`. -/
structure SearchResult where
  query : String
  resultCount : Nat
  results : List SearchEntry

/-- The per-dataset loop of `search_reference_data` (`q` is already
lowercased by the caller): a record whose full serialised text contains
`q` contributes one entry; others are skipped. -/
def searchRecords (label q : String) : List Json → Except Err (List SearchEntry)
  | [] => .ok []
  | t :: rest =>
    if occursIn q (lowerStr (dumps t)) then
      match t with
      | .obj fields => do
        let ctx ← extract_match_context t q
        let tail ← searchRecords label q rest
        pure ({ type := label, id := alookup fields "id",
                name := alookup fields "name", matchContext := ctx } :: tail)
      | _ => .error (.attrError "get")
    else searchRecords label q rest

/-- `search_reference_data(query)`: search the terpene library, then the
cannabinoid library — these two datasets only. -/
def search_reference_data (query : String) (st : Store) :
    Except Err (SearchResult × Store) := do
  let q := lowerStr query
  let ⟨lib, st1⟩ ← getReferenceSt st "terpene-library"
  let recs1 ← jRecordsE lib "terpenes"
  let r1 ← searchRecords "terpene" q recs1
  let ⟨clib, st2⟩ ← getReferenceSt st1 "cannabinoid-library"
  let recs2 ← jRecordsE clib "cannabinoids"
  let r2 ← searchRecords "cannabinoid" q recs2
  pure ({ query := query, resultCount := (r1 ++ r2).length,
          results := r1 ++ r2 }, st2)


theorem exBind_ok (a : α) (f : α → Except Err β) :
    (Except.ok a >>= f : Except Err β) = f a := rfl

theorem exMap_ok (a : α) (f : α → β) :
    (f <$> (Except.ok a : Except Err α)) = Except.ok (f a) := rfl

theorem exPure_eq (a : α) : (pure a : Except Err α) = Except.ok a := rfl

/-- `t.get(k, d)` as a total function on objects. -/
def jGetD (t : Json) (k : String) (d : Json) : Json := (jlookup t k).getD d

/-- String content of a JSON value, `""` otherwise (total stand-in, used
only under well-formedness hypotheses that make the fallback unreachable). -/
def strOfD : Json → String
  | .str s => s
  | _ => ""

/-- The record is a dict and carries a string value at `field`. -/
def hasStrField (field : String) (t : Json) : Bool :=
  match t with
  | .obj _ =>
    match jlookup t field with
    | some (.str _) => true
    | _ => false
  | _ => false

/-- The record is a dict whose value at `field`, when present, is a
string. -/
def optStrField (field : String) (t : Json) : Bool :=
  match t with
  | .obj _ =>
    match jlookup t field with
    | some (.str _) => true
    | none => true
    | some _ => false
  | _ => false

/-- Total form of the terpene loop body. -/
def terpMatchB (tid nm : Option String) (t : Json) : Bool :=
  (pyTruthy tid && jEqStr (jlookup t "id") (optStr tid)) ||
  (pyTruthy nm &&
    (lowerStr (strOfD (jGetD t "name" (.str ""))) == lowerStr (optStr nm)))

/-- Total form of the cannabinoid loop body: id, name or fullName. -/
def canMatchB (cid nm : Option String) (c : Json) : Bool :=
  (pyTruthy cid && jEqStr (jlookup c "id") (optStr cid)) ||
  (pyTruthy nm &&
    ((lowerStr (strOfD (jGetD c "name" (.str ""))) == lowerStr (optStr nm)) ||
     (lowerStr (strOfD (jGetD c "fullName" (.str ""))) == lowerStr (optStr nm))))

/-- Total form of the color loop body. -/
def colorMatchB (nm : String) (e : Json) : Bool :=
  lowerStr (strOfD (jGetD e "terpene" (.str ""))) == lowerStr nm

theorem hasStrField_optStrField (field : String) (t : Json)
    (h : hasStrField field t = true) : optStrField field t = true := by
  cases t with
  | obj fs =>
    unfold hasStrField at h
    unfold optStrField
    cases hl : alookup fs field with
    | none => simp [jlookup, hl] at h
    | some v => cases v <;> simp_all [jlookup, hl]
  | str s => simp [hasStrField] at h
  | num n => simp [hasStrField] at h
  | bool b => simp [hasStrField] at h
  | null => simp [hasStrField] at h
  | arr xs => simp [hasStrField] at h

theorem idHit_eq (tid : Option String) (t : Json) (fs : List (String × Json))
    (ht : t = Json.obj fs) :
    idHit tid t = .ok (pyTruthy tid && jEqStr (jlookup t "id") (optStr tid)) := by
  subst ht
  cases h : pyTruthy tid with
  | true => simp [idHit, h, dictGet, jlookup, exBind_ok, exPure_eq]
  | false => simp [idHit, h, exPure_eq]

theorem nameHit_eq (field : String) (nm : Option String) (t : Json)
    (h : optStrField field t = true) :
    nameHit field nm t =
      .ok (pyTruthy nm &&
        (lowerStr (strOfD (jGetD t field (.str ""))) == lowerStr (optStr nm))) := by
  obtain ⟨fs, hfs⟩ : ∃ fs, t = Json.obj fs := by
    cases t <;> simp_all [optStrField]
  obtain ⟨s, hs⟩ : ∃ s, jGetD t field (.str "") = Json.str s := by
    subst hfs
    cases hl : alookup fs field with
    | none => exact ⟨"", by simp [jGetD, jlookup, hl, Option.getD]⟩
    | some v => cases v <;> simp_all [optStrField, jlookup, jGetD, Option.getD]
  have hgd : ∀ (k : String) (d : Json), dictGetD t k d = .ok (jGetD t k d) := by
    intro k d
    rw [hfs]
    simp [dictGetD, jGetD, jlookup]
  have hso : strOfD (jGetD t field (.str "")) = s := by rw [hs]; rfl
  cases hn : pyTruthy nm with
  | false => simp [nameHit, hn, exPure_eq]
  | true =>
    rw [nameHit]
    simp [hn, hgd, hs, exBind_ok, exMap_ok, exPure_eq, strLower, strOfD]

theorem terpMatchE_eq (tid nm : Option String) (t : Json)
    (h : optStrField "name" t = true) :
    terpMatchE tid nm t = .ok (terpMatchB tid nm t) := by
  obtain ⟨fs, hfs⟩ : ∃ fs, t = Json.obj fs := by
    cases t <;> simp_all [optStrField]
  rw [terpMatchE, idHit_eq tid t fs hfs, nameHit_eq "name" nm t h]
  cases hb : (pyTruthy tid && jEqStr (jlookup t "id") (optStr tid)) with
  | true => simp [terpMatchB, hb, exBind_ok, exPure_eq]
  | false => simp [terpMatchB, hb, exBind_ok]

theorem canMatchE_eq (cid nm : Option String) (c : Json)
    (hn : optStrField "name" c = true) (hf : optStrField "fullName" c = true) :
    canMatchE cid nm c = .ok (canMatchB cid nm c) := by
  obtain ⟨fs, hfs⟩ : ∃ fs, c = Json.obj fs := by
    cases c <;> simp_all [optStrField]
  obtain ⟨s1, hs1⟩ : ∃ s, jGetD c "name" (.str "") = Json.str s := by
    subst hfs
    cases hl : alookup fs "name" with
    | none => exact ⟨"", by simp [jGetD, jlookup, hl, Option.getD]⟩
    | some v => cases v <;> simp_all [optStrField, jlookup, jGetD, Option.getD]
  obtain ⟨s2, hs2⟩ : ∃ s, jGetD c "fullName" (.str "") = Json.str s := by
    subst hfs
    cases hl : alookup fs "fullName" with
    | none => exact ⟨"", by simp [jGetD, jlookup, hl, Option.getD]⟩
    | some v => cases v <;> simp_all [optStrField, jlookup, jGetD, Option.getD]
  have hgd : ∀ (k : String) (d : Json), dictGetD c k d = .ok (jGetD c k d) := by
    intro k d
    rw [hfs]
    simp [dictGetD, jGetD, jlookup]
  have hgn : dictGetD c "name" (.str "") = .ok (Json.str s1) := by rw [hgd, hs1]
  have hgf : dictGetD c "fullName" (.str "") = .ok (Json.str s2) := by rw [hgd, hs2]
  have hso1 : strOfD (jGetD c "name" (.str "")) = s1 := by rw [hs1]; rfl
  have hso2 : strOfD (jGetD c "fullName" (.str "")) = s2 := by rw [hs2]; rfl
  rw [canMatchE, idHit_eq cid c fs hfs]
  cases hb : (pyTruthy cid && jEqStr (jlookup c "id") (optStr cid)) with
  | true => simp [canMatchB, hb, exBind_ok, exPure_eq]
  | false =>
    cases h2 : pyTruthy nm with
    | false => simp [canMatchB, hb, h2, exBind_ok, exPure_eq]
    | true =>
      simp only [exBind_ok, Bool.false_eq_true, if_false, h2, if_true, hgn, hgf,
        strLower]
      cases h3 : (lowerStr s1 == lowerStr (optStr nm)) with
      | true =>
        simp [canMatchB, hb, h2, hso1, hso2, h3, exBind_ok, exMap_ok, exPure_eq]
      | false =>
        simp [canMatchB, hb, h2, hso1, hso2, h3, exBind_ok, exMap_ok, exPure_eq]

theorem colorMatchE_eq (nm : String) (e : Json)
    (h : optStrField "terpene" e = true) :
    colorMatchE nm e = .ok (colorMatchB nm e) := by
  obtain ⟨fs, hfs⟩ : ∃ fs, e = Json.obj fs := by
    cases e <;> simp_all [optStrField]
  obtain ⟨s, hs⟩ : ∃ s, jGetD e "terpene" (.str "") = Json.str s := by
    subst hfs
    cases hl : alookup fs "terpene" with
    | none => exact ⟨"", by simp [jGetD, jlookup, hl, Option.getD]⟩
    | some v => cases v <;> simp_all [optStrField, jlookup, jGetD, Option.getD]
  have hgd : ∀ (k : String) (d : Json), dictGetD e k d = .ok (jGetD e k d) := by
    intro k d
    rw [hfs]
    simp [dictGetD, jGetD, jlookup]
  have hso : strOfD (jGetD e "terpene" (.str "")) = s := by rw [hs]; rfl
  rw [colorMatchE]
  simp [hgd, hs, exBind_ok, exMap_ok, exPure_eq, strLower, colorMatchB, strOfD]

theorem findMatchE_eq (p : Json → Except Err Bool) (pb : Json → Bool)
    (recs : List Json) (h : ∀ t ∈ recs, p t = .ok (pb t)) :
    findMatchE p recs = .ok (recs.find? pb) := by
  induction recs with
  | nil => rfl
  | cons t rest ih =>
    have ht := h t (List.mem_cons_self t rest)
    have hrest : ∀ u ∈ rest, p u = .ok (pb u) :=
      fun u hu => h u (List.mem_cons_of_mem t hu)
    cases hb : pb t with
    | true =>
      simp [findMatchE, ht, hb, exBind_ok, exPure_eq, List.find?_cons]
    | false =>
      simp [findMatchE, ht, hb, exBind_ok, List.find?_cons, ih hrest]

theorem availList_ok (field : String) (recs : List Json)
    (h : ∀ t ∈ recs, hasStrField field t = true) :
    availList field recs = .ok (recs.map fun t => jGetD t field .null) := by
  induction recs with
  | nil => rfl
  | cons t rest ih =>
    have ht := h t (List.mem_cons_self t rest)
    have hrest : ∀ u ∈ rest, hasStrField field u = true :=
      fun u hu => h u (List.mem_cons_of_mem t hu)
    obtain ⟨fs, hfs⟩ : ∃ fs, t = Json.obj fs := by
      cases t with
      | obj fs => exact ⟨fs, rfl⟩
      | str s => simp [hasStrField] at ht
      | num n => simp [hasStrField] at ht
      | bool b => simp [hasStrField] at ht
      | null => simp [hasStrField] at ht
      | arr xs => simp [hasStrField] at ht
    obtain ⟨s, hs⟩ : ∃ s, alookup fs field = some (Json.str s) := by
      rw [hfs] at ht
      simp only [hasStrField, jlookup] at ht
      cases hl : alookup fs field with
      | none => rw [hl] at ht; simp at ht
      | some v =>
        rw [hl] at ht
        cases v with
        | str s => exact ⟨s, rfl⟩
        | num n => simp at ht
        | bool b => simp at ht
        | null => simp at ht
        | arr xs => simp at ht
        | obj gs => simp at ht
    have hd : dictIndex t field = .ok (Json.str s) := by
      rw [hfs]
      simp [dictIndex, hs]
    have hj : jGetD t field .null = Json.str s := by
      rw [hfs]
      simp [jGetD, jlookup, hs, Option.getD]
    have h1 : availList field (t :: rest) =
        (dictIndex t field >>= fun v =>
          availList field rest >>= fun vs => pure (v :: vs)) := rfl
    rw [h1, hd, exBind_ok, ih hrest, exBind_ok, exPure_eq, List.map_cons, hj]

/-- One entry of the cannabinoid available list as a total function, valid
for records with a string `name`. -/
def canAvailB (c : Json) : Json :=
  .str (pyStr (jGetD c "name" .null) ++ " (" ++
    pyStr (jGetD c "fullName" (.str "")) ++ ")")

theorem canAvailList_ok (recs : List Json)
    (h : ∀ c ∈ recs, hasStrField "name" c = true ∧ optStrField "fullName" c = true) :
    canAvailList recs = .ok (recs.map canAvailB) := by
  induction recs with
  | nil => rfl
  | cons c rest ih =>
    obtain ⟨h1, h2⟩ := h c (List.mem_cons_self c rest)
    have hrest : ∀ u ∈ rest, hasStrField "name" u = true ∧ optStrField "fullName" u = true :=
      fun u hu => h u (List.mem_cons_of_mem c hu)
    obtain ⟨fs, hfs⟩ : ∃ fs, c = Json.obj fs := by
      cases c with
      | obj fs => exact ⟨fs, rfl⟩
      | str s => simp [hasStrField] at h1
      | num n => simp [hasStrField] at h1
      | bool b => simp [hasStrField] at h1
      | null => simp [hasStrField] at h1
      | arr xs => simp [hasStrField] at h1
    obtain ⟨s, hs⟩ : ∃ s, alookup fs "name" = some (Json.str s) := by
      rw [hfs] at h1
      simp only [hasStrField, jlookup] at h1
      cases hl : alookup fs "name" with
      | none => rw [hl] at h1; simp at h1
      | some v =>
        rw [hl] at h1
        cases v with
        | str s => exact ⟨s, rfl⟩
        | num n => simp at h1
        | bool b => simp at h1
        | null => simp at h1
        | arr xs => simp at h1
        | obj gs => simp at h1
    have hd : dictIndex c "name" = .ok (Json.str s) := by
      rw [hfs]
      simp [dictIndex, hs]
    have hg : dictGetD c "fullName" (.str "") = .ok (jGetD c "fullName" (.str "")) := by
      rw [hfs]
      simp [dictGetD, jGetD, jlookup]
    have hjn : jGetD c "name" .null = Json.str s := by
      rw [hfs]
      simp [jGetD, jlookup, hs, Option.getD]
    have he : canAvailEntry c = .ok (canAvailB c) := by
      have h0 : canAvailEntry c =
          (dictIndex c "name" >>= fun v =>
            dictGetD c "fullName" (.str "") >>= fun f =>
              pure (.str (pyStr v ++ " (" ++ pyStr f ++ ")"))) := rfl
      rw [h0, hd, exBind_ok, hg, exBind_ok, exPure_eq]
      simp [canAvailB, hjn, pyStr]
    have h0 : canAvailList (c :: rest) =
        (canAvailEntry c >>= fun v =>
          canAvailList rest >>= fun vs => pure (v :: vs)) := rfl
    rw [h0, he, exBind_ok, ih hrest, exBind_ok, exPure_eq, List.map_cons]

/-- Whether a JSON value is an object. -/
def isObjB : Json → Bool
  | .obj _ => true
  | _ => false

/-- One search entry as a total function of the record (`q` is the already
lowercased query; the context check lowers it again, as the source does). -/
def searchEntryB (label q : String) (t : Json) : Option SearchEntry :=
  match t with
  | .obj fields =>
    if occursIn q (lowerStr (dumps t)) then
      some { type := label, id := alookup fields "id",
             name := alookup fields "name",
             matchContext := "Matched in: " ++ joinComma ((fields.filter fun kv =>
               occursIn (lowerStr q) (lowerStr (dumps kv.2))).map Prod.fst) }
    else none
  | _ => none

theorem searchRecords_ok (label q : String) (recs : List Json)
    (h : ∀ t ∈ recs, isObjB t = true) :
    searchRecords label q recs = .ok (recs.filterMap (searchEntryB label q)) := by
  induction recs with
  | nil => rfl
  | cons t rest ih =>
    have ht := h t (List.mem_cons_self t rest)
    have hrest : ∀ u ∈ rest, isObjB u = true :=
      fun u hu => h u (List.mem_cons_of_mem t hu)
    obtain ⟨fs, hfs⟩ : ∃ fs, t = Json.obj fs := by
      cases t with
      | obj fs => exact ⟨fs, rfl⟩
      | str s => simp [isObjB] at ht
      | num n => simp [isObjB] at ht
      | bool b => simp [isObjB] at ht
      | null => simp [isObjB] at ht
      | arr xs => simp [isObjB] at ht
    subst hfs
    cases hocc : occursIn q (lowerStr (dumps (Json.obj fs))) with
    | true =>
      have hstep : searchRecords label q (Json.obj fs :: rest) =
          (extract_match_context (Json.obj fs) q >>= fun ctx =>
            searchRecords label q rest >>= fun tail =>
              pure ({ type := label, id := alookup fs "id",
                      name := alookup fs "name", matchContext := ctx } :: tail)) := by
        simp [searchRecords, hocc]
      rw [hstep, show extract_match_context (Json.obj fs) q =
            .ok ("Matched in: " ++ joinComma ((fs.filter fun kv =>
              occursIn (lowerStr q) (lowerStr (dumps kv.2))).map Prod.fst)) from rfl,
          exBind_ok, ih hrest, exBind_ok, exPure_eq]
      simp [searchEntryB, hocc, List.filterMap_cons]
    | false =>
      have hstep : searchRecords label q (Json.obj fs :: rest) =
          searchRecords label q rest := by
        simp [searchRecords, hocc]
      rw [hstep, ih hrest]
      simp [searchEntryB, hocc, List.filterMap_cons]

theorem sortErrs_perm (es : List VErr) : List.Perm (sortErrs es) es :=
  isort_perm _ es

theorem sortErrs_sorted (es : List VErr) :
    (sortErrs es).Pairwise
      (fun a b => pathLeB a.absolutePath b.absolutePath = true) := by
  have htot : TotalLe (fun (a b : VErr) => pathLeB a.absolutePath b.absolutePath) :=
    fun a b => lexLe_total segLtB a.absolutePath b.absolutePath
  have htr : TransLe (fun (a b : VErr) => pathLeB a.absolutePath b.absolutePath) :=
    fun a b c h1 h2 => lexLe_trans segLtB segLtB_tieEq segLtB_trans
      a.absolutePath b.absolutePath c.absolutePath h1 h2
  exact isort_sorted (fun a b => pathLeB a.absolutePath b.absolutePath) htot htr es

/-- Two sorted lists of errors that are permutations of each other and
whose instance paths are pairwise distinct are equal: sorting by path alone
determines the output once no two errors share a path. -/
theorem eq_of_perm_sorted_nodupPaths (l : List VErr) :
    ∀ l' : List VErr, List.Perm l l' →
      l.Pairwise (fun a b => pathLeB a.absolutePath b.absolutePath = true) →
      l'.Pairwise (fun a b => pathLeB a.absolutePath b.absolutePath = true) →
      (l.map VErr.absolutePath).Nodup → l = l' := by
  induction l with
  | nil =>
    intro l' hp _ _ _
    exact (List.Perm.eq_nil hp.symm).symm
  | cons a t ih =>
    intro l' hp hs hs' hnd
    cases l' with
    | nil => exact absurd (List.Perm.eq_nil hp) (by simp)
    | cons b t' =>
      rcases List.pairwise_cons.mp hs with ⟨ha, hst⟩
      rcases List.pairwise_cons.mp hs' with ⟨hb, hst'⟩
      rw [List.map_cons] at hnd
      rcases List.nodup_cons.mp hnd with ⟨hna, hndt⟩
      have hmem_a : a ∈ b :: t' := hp.mem_iff.mp (List.mem_cons_self a t)
      have hmem_b : b ∈ a :: t := hp.symm.mem_iff.mp (List.mem_cons_self b t')
      have hab : a = b := by
        rcases List.mem_cons.mp hmem_a with h1 | h1
        · exact h1
        rcases List.mem_cons.mp hmem_b with h2 | h2
        · exact h2.symm
        have h3 : pathLeB b.absolutePath a.absolutePath = true := hb a h1
        have h4 : pathLeB a.absolutePath b.absolutePath = true := ha b h2
        have hpath : a.absolutePath = b.absolutePath :=
          lexLe_antisym segLtB segLtB_asymm segLtB_tieEq _ _ h4 h3
        exfalso
        apply hna
        rw [hpath]
        exact List.mem_map_of_mem VErr.absolutePath h2
      subst hab
      rw [ih t' hp.cons_inv hst hst' hndt]

/-- Error post-processing is invariant under permuting the checker output
whenever no two errors share an instance path. -/
theorem processErrors_det (es es' : List VErr)
    (hperm : List.Perm es' es)
    (hnd : (es.map VErr.absolutePath).Nodup) :
    processErrors es' = processErrors es := by
  have hperm2 : List.Perm (sortErrs es') (sortErrs es) :=
    ((sortErrs_perm es').trans hperm).trans (sortErrs_perm es).symm
  have hnd2 : ((sortErrs es).map VErr.absolutePath).Nodup :=
    (List.Perm.nodup_iff ((sortErrs_perm es).map VErr.absolutePath)).mpr hnd
  have hnd1 : ((sortErrs es').map VErr.absolutePath).Nodup :=
    (List.Perm.nodup_iff (hperm2.map VErr.absolutePath)).mpr hnd2
  have heq : sortErrs es' = sortErrs es :=
    eq_of_perm_sorted_nodupPaths (sortErrs es') (sortErrs es) hperm2
      (sortErrs_sorted es') (sortErrs_sorted es) hnd1
  rw [processErrors, processErrors, heq]

/-- Keys absent from the item list are untouched by the refresh loop. -/
theorem syncItems_untouched (fetch : String → FetchRes) (label : String)
    (items : List String) (cache disk : List (String × Json)) (n : String)
    (hn : n ∉ items) :
    alookup (syncItems fetch label items cache disk).2.2.1 n = alookup cache n ∧
    alookup (syncItems fetch label items cache disk).2.2.2 n = alookup disk n := by
  induction items generalizing cache disk with
  | nil => exact ⟨rfl, rfl⟩
  | cons m rest ih =>
    have hnm : n ≠ m := fun he => hn (he ▸ List.mem_cons_self m rest)
    have hnr : n ∉ rest := fun hr => hn (List.mem_cons_of_mem m hr)
    cases hfm : fetch m with
    | ok d =>
      have := ih (aset cache m d) (aset disk m d) hnr
      simp only [syncItems, hfm]
      exact ⟨by rw [this.1, alookup_aset_other cache m n d hnm],
             by rw [this.2, alookup_aset_other disk m n d hnm]⟩
    | httpFail code => simpa [syncItems, hfm] using ih cache disk hnr
    | exc msg => simpa [syncItems, hfm] using ih cache disk hnr

/-- A successfully fetched item ends up stored, in cache and on disk. -/
theorem syncItems_success_lookup (fetch : String → FetchRes) (label : String)
    (items : List String) (cache disk : List (String × Json)) (n : String)
    (d : Json) (hf : fetch n = .ok d) (hn : n ∈ items) :
    alookup (syncItems fetch label items cache disk).2.2.1 n = some d ∧
    alookup (syncItems fetch label items cache disk).2.2.2 n = some d := by
  induction items generalizing cache disk with
  | nil => cases hn
  | cons m rest ih =>
    by_cases hmem : n ∈ rest
    · cases hfm : fetch m with
      | ok e => simpa [syncItems, hfm] using ih (aset cache m e) (aset disk m e) hmem
      | httpFail code => simpa [syncItems, hfm] using ih cache disk hmem
      | exc msg => simpa [syncItems, hfm] using ih cache disk hmem
    · have hnm : n = m := by
        rcases List.mem_cons.mp hn with h | h
        · exact h
        · exact absurd h hmem
      subst hnm
      simp only [syncItems, hf]
      have hun := syncItems_untouched fetch label rest (aset cache n d)
        (aset disk n d) n hmem
      exact ⟨by rw [hun.1, alookup_aset_self],
             by rw [hun.2, alookup_aset_self]⟩

theorem mem_keys_of_alookup (l : List (String × Json)) (n : String) (v : Json)
    (h : alookup l n = some v) : n ∈ l.map Prod.fst := by
  induction l with
  | nil => cases h
  | cons hd tl ih =>
    obtain ⟨k, w⟩ := hd
    by_cases hk : k = n
    · simp [hk]
    · simp only [alookup, beq_iff_eq, hk, if_false] at h
      simp [ih h]

theorem strLeB_total : TotalLe strLeB :=
  fun a b => lexLe_total charLtB a.data b.data

theorem strLeB_trans : TransLe strLeB :=
  fun a b c h1 h2 =>
    lexLe_trans charLtB charLtB_tieEq charLtB_trans a.data b.data c.data h1 h2

theorem find?_first (p : Json → Bool) (pre post : List Json) (r : Json)
    (hpre : ∀ x ∈ pre, p x = false) (hr : p r = true) :
    (pre ++ r :: post).find? p = some r := by
  induction pre with
  | nil => simp [List.find?_cons, hr]
  | cons a rest ih =>
    have ha := hpre a (List.mem_cons_self a rest)
    simp [List.find?_cons, ha,
      ih (fun x hx => hpre x (List.mem_cons_of_mem a hx))]

/-- Success specification of `get_terpene_info` on a well-formed dataset:
the first record matching by id or case-insensitive name, else the
structured not-found payload listing every name. -/
theorem get_terpene_info_spec (st : Store) (tid nm : Option String)
    (tlib : Json) (hT : readRef st "terpene-library" = some tlib)
    (hwfd : wfDataset tlib "terpenes" = true)
    (hwf : ∀ t ∈ jRecords tlib "terpenes", hasStrField "name" t = true) :
    ∃ st1, get_terpene_info tid nm st = .ok
      ((match (jRecords tlib "terpenes").find? (terpMatchB tid nm) with
        | some t => .found t
        | none => .notFound
            (s!"Terpene not found. Search: id={optStr tid}, name={optStr nm}")
            ((jRecords tlib "terpenes").map fun t => jGetD t "name" .null)), st1) := by
  obtain ⟨st1, hget⟩ := getReferenceSt_ok_of_read st "terpene-library" tlib hT
  have hfind : findMatchE (terpMatchE tid nm) (jRecords tlib "terpenes") =
      .ok ((jRecords tlib "terpenes").find? (terpMatchB tid nm)) :=
    findMatchE_eq _ _ _ (fun t ht =>
      terpMatchE_eq tid nm t (hasStrField_optStrField "name" t (hwf t ht)))
  refine ⟨st1, ?_⟩
  simp only [get_terpene_info, hget, exBind_ok, jRecordsE_wf tlib "terpenes" hwfd,
    hfind]
  cases hm : (jRecords tlib "terpenes").find? (terpMatchB tid nm) with
  | some t => simp [exPure_eq]
  | none =>
    have hav := availList_ok "name" (jRecords tlib "terpenes") hwf
    simp [hav, exBind_ok, exPure_eq]

/-- Success specification of `get_cannabinoid_info` on a well-formed
dataset: id, name or fullName match, else structured not-found. -/
theorem get_cannabinoid_info_spec (st : Store) (cid nm : Option String)
    (clib : Json) (hC : readRef st "cannabinoid-library" = some clib)
    (hwfd : wfDataset clib "cannabinoids" = true)
    (hwf : ∀ c ∈ jRecords clib "cannabinoids",
      hasStrField "name" c = true ∧ optStrField "fullName" c = true) :
    ∃ st1, get_cannabinoid_info cid nm st = .ok
      ((match (jRecords clib "cannabinoids").find? (canMatchB cid nm) with
        | some c => .found c
        | none => .notFound
            (s!"Cannabinoid not found. Search: id={optStr cid}, name={optStr nm}")
            ((jRecords clib "cannabinoids").map canAvailB)), st1) := by
  obtain ⟨st1, hget⟩ := getReferenceSt_ok_of_read st "cannabinoid-library" clib hC
  have hfind : findMatchE (canMatchE cid nm) (jRecords clib "cannabinoids") =
      .ok ((jRecords clib "cannabinoids").find? (canMatchB cid nm)) :=
    findMatchE_eq _ _ _ (fun c hc =>
      canMatchE_eq cid nm c
        (hasStrField_optStrField "name" c (hwf c hc).1) (hwf c hc).2)
  refine ⟨st1, ?_⟩
  simp only [get_cannabinoid_info, hget, exBind_ok,
    jRecordsE_wf clib "cannabinoids" hwfd, hfind]
  cases hm : (jRecords clib "cannabinoids").find? (canMatchB cid nm) with
  | some c => simp [exPure_eq]
  | none =>
    have hav := canAvailList_ok (jRecords clib "cannabinoids") hwf
    simp [hav, exBind_ok, exPure_eq]

/-- Success specification of `lookup_terpene_color` on a well-formed
dataset. -/
theorem lookup_terpene_color_spec (st : Store) (nm : String)
    (colors : Json) (hK : readRef st "terpene-colors" = some colors)
    (hwfd : wfDataset colors "colors" = true)
    (hwf : ∀ e ∈ jRecords colors "colors", hasStrField "terpene" e = true) :
    ∃ st1, lookup_terpene_color nm st = .ok
      ((match (jRecords colors "colors").find? (colorMatchB nm) with
        | some e => .found e
        | none => .notFound (s!"Terpene color not found: {nm}")
            ((jRecords colors "colors").map fun e => jGetD e "terpene" .null)), st1) := by
  obtain ⟨st1, hget⟩ := getReferenceSt_ok_of_read st "terpene-colors" colors hK
  have hfind : findMatchE (colorMatchE nm) (jRecords colors "colors") =
      .ok ((jRecords colors "colors").find? (colorMatchB nm)) :=
    findMatchE_eq _ _ _ (fun e he =>
      colorMatchE_eq nm e (hasStrField_optStrField "terpene" e (hwf e he)))
  refine ⟨st1, ?_⟩
  simp only [lookup_terpene_color, hget, exBind_ok,
    jRecordsE_wf colors "colors" hwfd, hfind]
  cases hm : (jRecords colors "colors").find? (colorMatchB nm) with
  | some e => simp [exPure_eq]
  | none =>
    have hav := availList_ok "terpene" (jRecords colors "colors") hwf
    simp [hav, exBind_ok, exPure_eq]

theorem mem_resOf (names : List String) (st : Store) (u s : Json) :
    (u, s) ∈ resOf names st ↔
      ∃ n, n ∈ names ∧ readSchema st n = some s ∧ jlookup s "$id" = some u := by
  induction names with
  | nil => simp [resOf]
  | cons n rest ih =>
    simp only [resOf, List.filterMap_cons] at ih ⊢
    cases hr : readSchema st n with
    | none =>
      simp only [resEntry, hr]
      rw [ih]
      constructor
      · rintro ⟨m, hm, hms, hmu⟩
        exact ⟨m, List.mem_cons_of_mem n hm, hms, hmu⟩
      · rintro ⟨m, hm, hms, hmu⟩
        rcases List.mem_cons.mp hm with he | he
        · subst he; rw [hr] at hms; cases hms
        · exact ⟨m, he, hms, hmu⟩
    | some s' =>
      cases hid : jlookup s' "$id" with
      | none =>
        simp only [resEntry, hr, hid, Option.map_none']
        rw [ih]
        constructor
        · rintro ⟨m, hm, hms, hmu⟩
          exact ⟨m, List.mem_cons_of_mem n hm, hms, hmu⟩
        · rintro ⟨m, hm, hms, hmu⟩
          rcases List.mem_cons.mp hm with he | he
          · subst he
            rw [hr] at hms
            injection hms with hms
            subst hms
            rw [hid] at hmu
            cases hmu
          · exact ⟨m, he, hms, hmu⟩
      | some u' =>
        simp only [resEntry, hr, hid, Option.map_some']
        simp only [List.mem_cons]
        constructor
        · rintro (he | hmem)
          · rw [Prod.mk.injEq] at he
            exact ⟨n, Or.inl rfl,
              by rw [hr, he.2], by rw [← he.2] at hid; rw [hid, he.1]⟩
          · obtain ⟨m, hm, hms, hmu⟩ := ih.mp hmem
            exact ⟨m, Or.inr hm, hms, hmu⟩
        · rintro ⟨m, hm, hms, hmu⟩
          rcases hm with he | he
          · subst he
            rw [hr] at hms
            injection hms with hms
            subst hms
            rw [hid] at hmu
            injection hmu with hmu
            subst hmu
            exact Or.inl rfl
          · exact Or.inr (ih.mpr ⟨m, he, hms, hmu⟩)

/-- C2: a schema name present in neither the cache nor durable storage
makes `_get_schema` fail with the not-found error, and `validate_data` on
that name fails with the same error, propagated unchanged; a name with a
stored document never fails, and when it is not yet cached the stored
document itself is returned. -/
theorem claim_c2_schema_not_found
    (ie : Json → Json → List (Json × Json) → List VErr)
    (st : Store) (name : String) (data : Json) :
    (alookup st.schemaCache name = none → alookup st.schemaDisk name = none →
      getSchemaSt st name = .error (.fileNotFound s!"Schema not found: {name}") ∧
      validate_data ie st name data =
        .error (.fileNotFound s!"Schema not found: {name}")) ∧
    (∀ doc, alookup st.schemaDisk name = some doc →
      (∃ st' r, getSchemaSt st name = .ok (r, st')) ∧
      (alookup st.schemaCache name = none →
        ∃ st', getSchemaSt st name = .ok (doc, st'))) := by
  constructor
  · intro h1 h2
    have hr : readSchema st name = none := by
      simp [readSchema, h1, h2, Option.orElse]
    exact ⟨getSchemaSt_err_of_read st name hr,
      validate_data_err_spec ie st name data hr⟩
  · intro doc hd
    constructor
    · have hr : ∃ s, readSchema st name = some s := by
        unfold readSchema
        cases hc : alookup st.schemaCache name with
        | none => exact ⟨doc, by simp [Option.orElse, hc, hd]⟩
        | some v => exact ⟨v, by simp [Option.orElse, hc]⟩
      obtain ⟨s, hs⟩ := hr
      obtain ⟨st', h⟩ := getSchemaSt_ok_of_read st name s hs
      exact ⟨st', s, h⟩
    · intro hc
      have hr : readSchema st name = some doc := by
        simp [readSchema, hc, hd, Option.orElse]
      exact getSchemaSt_ok_of_read st name doc hr

theorem claim_c2_witness :
    getSchemaSt ⟨[], [], [], [], none⟩ "nope" =
      .error (.fileNotFound "Schema not found: nope") ∧
    (∃ st', getSchemaSt ⟨[], [("strain", Json.obj [])], [], [], none⟩ "strain" =
      .ok (Json.obj [], st')) := by
  constructor
  · exact ((claim_c2_schema_not_found (fun _ _ _ => [])
      ⟨[], [], [], [], none⟩ "nope" Json.null).1 rfl rfl).1
  · exact ((claim_c2_schema_not_found (fun _ _ _ => [])
      ⟨[], [("strain", Json.obj [])], [], [], none⟩ "strain" Json.null).2
        (Json.obj []) rfl).2 rfl

/-- C6: every refresh call returns a summary carrying the count of schemas
actually updated, the count of reference datasets actually updated, the
per-item error strings in item order, and the completion timestamp; and it
sets the process-wide last-refresh timestamp to that completion time
unconditionally, however many items (or the whole client) failed. -/
theorem claim_c6_refresh_summary (cf : Option String)
    (fS fR : String → FetchRes) (now : String) (st : Store) :
    ((sync_schemas_from_github cf fS fR now st).2).lastSync = some now ∧
    (sync_schemas_from_github cf fS fR now st).1.synced_at = now ∧
    (cf = none →
      (sync_schemas_from_github cf fS fR now st).1.schemas_updated =
        countOk fS githubSchemaFiles ∧
      (sync_schemas_from_github cf fS fR now st).1.references_updated =
        countOk fR githubReferenceNames ∧
      (sync_schemas_from_github cf fS fR now st).1.errors =
        itemErrors fS "Schema" githubSchemaFiles ++
          itemErrors fR "Reference" githubReferenceNames) := by
  cases cf with
  | some msg =>
    refine ⟨rfl, rfl, fun h => ?_⟩
    simp at h
  | none =>
    refine ⟨rfl, rfl, fun _ => ⟨?_, ?_, ?_⟩⟩
    · exact syncItems_count fS "Schema" githubSchemaFiles
        st.schemaCache st.schemaDisk
    · exact syncItems_count fR "Reference" githubReferenceNames
        st.refCache st.refDisk
    · show (syncItems fS "Schema" githubSchemaFiles st.schemaCache st.schemaDisk).2.1 ++
        (syncItems fR "Reference" githubReferenceNames st.refCache st.refDisk).2.1 = _
      rw [syncItems_errors, syncItems_errors]

theorem claim_c6_witness :
    (sync_schemas_from_github none (fun _ => FetchRes.httpFail 404)
      (fun _ => FetchRes.httpFail 404) "t" ⟨[], [], [], [], none⟩).1.schemas_updated =
      countOk (fun _ => FetchRes.httpFail 404) githubSchemaFiles :=
  ((claim_c6_refresh_summary none (fun _ => FetchRes.httpFail 404)
    (fun _ => FetchRes.httpFail 404) "t" ⟨[], [], [], [], none⟩).2.2 rfl).1

/-- C8: the two listing helpers enumerate exactly the names present in
durable storage — whether cached or not, the cache plays no part — in
sorted order, and two states with the same storage give the same list. -/
theorem claim_c8_list_names (st st2 : Store) :
    (∀ n, n ∈ all_schema_names st ↔ n ∈ st.schemaDisk.map Prod.fst) ∧
    (∀ n, n ∈ all_reference_names st ↔ n ∈ st.refDisk.map Prod.fst) ∧
    (all_schema_names st).Pairwise (fun a b => strLeB a b = true) ∧
    (all_reference_names st).Pairwise (fun a b => strLeB a b = true) ∧
    (st2.schemaDisk = st.schemaDisk → all_schema_names st2 = all_schema_names st) ∧
    (st2.refDisk = st.refDisk → all_reference_names st2 = all_reference_names st) := by
  refine ⟨fun n => mem_sortStrs _ n, fun n => mem_sortStrs _ n, ?_, ?_, ?_, ?_⟩
  · exact isort_sorted strLeB strLeB_total strLeB_trans _
  · exact isort_sorted strLeB strLeB_total strLeB_trans _
  · intro h
    unfold all_schema_names
    rw [h]
  · intro h
    unfold all_reference_names
    rw [h]

theorem claim_c8_witness :
    all_schema_names ⟨[("x", Json.null)], [("b", Json.null), ("a", Json.null)], [], [], none⟩ =
      all_schema_names ⟨[], [("b", Json.null), ("a", Json.null)], [], [], none⟩ :=
  (claim_c8_list_names ⟨[], [("b", Json.null), ("a", Json.null)], [], [], none⟩
    ⟨[("x", Json.null)], [("b", Json.null), ("a", Json.null)], [], [], none⟩).2.2.2.2.1 rfl

/-- C9: the three fields of every result `validate_data` returns are
mutually consistent: `valid` is true exactly when `errorCount` is zero, and
`errorCount` equals the length of the `errors` list. -/
theorem claim_c9_validate_consistency
    (ie : Json → Json → List (Json × Json) → List VErr)
    (st : Store) (sn : String) (data : Json) (r : VResult) (st' : Store)
    (h : validate_data ie st sn data = .ok (r, st')) :
    (r.valid = true ↔ r.errorCount = 0) ∧ r.errorCount = r.errors.length := by
  unfold validate_data at h
  cases hg : getSchemaSt st sn with
  | error e => rw [hg] at h; cases h
  | ok p =>
    obtain ⟨schema, st1⟩ := p
    rw [hg] at h
    dsimp only at h
    cases hb : buildResourcesSt (all_schema_names st1) st1 with
    | error e => rw [hb] at h; cases h
    | ok q =>
      obtain ⟨res, st2⟩ := q
      rw [hb] at h
      dsimp only at h
      simp only [Except.ok.injEq, Prod.mk.injEq] at h
      obtain ⟨h1, _⟩ := h
      subst h1
      simp [Nat.beq_eq]

theorem claim_c9_witness :
    ((true = true) ↔ ((0 : Nat) = 0)) ∧
      (0 : Nat) = ([] : List RenderedErr).length :=
  claim_c9_validate_consistency (fun _ _ _ => [])
    ⟨[], [("strain", Json.obj [])], [], [], none⟩ "strain" Json.null
    { valid := true, schemaName := "strain", errorCount := 0, errors := [] }
    ⟨[("strain", Json.obj [])], [("strain", Json.obj [])], [], [], none⟩ rfl

/-- The catalog component of the process state: both caches and both
storage directories (the last-refresh timestamp is separate state). -/
def catalogEq (a b : Store) : Prop :=
  a.schemaCache = b.schemaCache ∧ a.schemaDisk = b.schemaDisk ∧
  a.refCache = b.refCache ∧ a.refDisk = b.refDisk

/-- C3: a refresh item whose fetch fails keeps its cache binding and its
persisted file unchanged while the loop continues with the other items;
with every fetch failing, one or two refresh calls leave the whole catalog
identical and each call reports a non-empty error list and zero update
counts. -/
theorem claim_c3_refresh_failure_frame (fS fR : String → FetchRes)
    (now now2 : String) (st : Store) :
    (∀ n, (fS n).succ = false →
      alookup ((sync_schemas_from_github none fS fR now st).2).schemaCache n =
        alookup st.schemaCache n ∧
      alookup ((sync_schemas_from_github none fS fR now st).2).schemaDisk n =
        alookup st.schemaDisk n) ∧
    (∀ n, (fR n).succ = false →
      alookup ((sync_schemas_from_github none fS fR now st).2).refCache n =
        alookup st.refCache n ∧
      alookup ((sync_schemas_from_github none fS fR now st).2).refDisk n =
        alookup st.refDisk n) ∧
    ((∀ n, (fS n).succ = false) → (∀ n, (fR n).succ = false) →
      catalogEq (sync_schemas_from_github none fS fR now st).2 st ∧
      catalogEq (sync_schemas_from_github none fS fR now2
        (sync_schemas_from_github none fS fR now st).2).2 st ∧
      (sync_schemas_from_github none fS fR now st).1.errors ≠ [] ∧
      (sync_schemas_from_github none fS fR now2
        (sync_schemas_from_github none fS fR now st).2).1.errors ≠ [] ∧
      (sync_schemas_from_github none fS fR now st).1.schemas_updated = 0 ∧
      (sync_schemas_from_github none fS fR now st).1.references_updated = 0 ∧
      (sync_schemas_from_github none fS fR now2
        (sync_schemas_from_github none fS fR now st).2).1.schemas_updated = 0 ∧
      (sync_schemas_from_github none fS fR now2
        (sync_schemas_from_github none fS fR now st).2).1.references_updated = 0) := by
  refine ⟨?_, ?_, ?_⟩
  · intro n hf
    exact syncItems_frame fS "Schema" githubSchemaFiles
      st.schemaCache st.schemaDisk n hf
  · intro n hf
    exact syncItems_frame fR "Reference" githubReferenceNames
      st.refCache st.refDisk n hf
  · intro hS hR
    have h1 := syncItems_allFail fS "Schema" githubSchemaFiles
      st.schemaCache st.schemaDisk (fun n _ => hS n)
    have h2 := syncItems_allFail fR "Reference" githubReferenceNames
      st.refCache st.refDisk (fun n _ => hR n)
    have hsync1 : sync_schemas_from_github none fS fR now st =
        ({ schemas_updated := 0, references_updated := 0,
           errors := itemErrors fS "Schema" githubSchemaFiles ++
             itemErrors fR "Reference" githubReferenceNames, synced_at := now },
         { schemaCache := st.schemaCache, schemaDisk := st.schemaDisk,
           refCache := st.refCache, refDisk := st.refDisk,
           lastSync := some now }) := by
      simp only [sync_schemas_from_github, h1, h2]
    have hsync2 : sync_schemas_from_github none fS fR now2
        (sync_schemas_from_github none fS fR now st).2 =
        ({ schemas_updated := 0, references_updated := 0,
           errors := itemErrors fS "Schema" githubSchemaFiles ++
             itemErrors fR "Reference" githubReferenceNames, synced_at := now2 },
         { schemaCache := st.schemaCache, schemaDisk := st.schemaDisk,
           refCache := st.refCache, refDisk := st.refDisk,
           lastSync := some now2 }) := by
      rw [hsync1]
      simp only [sync_schemas_from_github, h1, h2]
    have hne : itemErrors fS "Schema" githubSchemaFiles ++
        itemErrors fR "Reference" githubReferenceNames ≠ [] := by
      have hs := hS "strain"
      cases hf : fS "strain" with
      | ok d => rw [hf] at hs; cases hs
      | httpFail code =>
        simp [githubSchemaFiles, itemErrors, List.filterMap_cons, itemError, hf]
      | exc msg =>
        simp [githubSchemaFiles, itemErrors, List.filterMap_cons, itemError, hf]
    rw [hsync2, hsync1]
    unfold catalogEq
    exact ⟨⟨rfl, rfl, rfl, rfl⟩, ⟨rfl, rfl, rfl, rfl⟩, hne, hne,
      rfl, rfl, rfl, rfl⟩

theorem claim_c3_witness :
    catalogEq (sync_schemas_from_github none (fun _ => FetchRes.httpFail 500)
      (fun _ => FetchRes.httpFail 500) "t2"
      (sync_schemas_from_github none (fun _ => FetchRes.httpFail 500)
        (fun _ => FetchRes.httpFail 500) "t1" ⟨[], [], [], [], none⟩).2).2
      ⟨[], [], [], [], none⟩ ∧
    (sync_schemas_from_github none (fun _ => FetchRes.httpFail 500)
      (fun _ => FetchRes.httpFail 500) "t1"
      ⟨[], [], [], [], none⟩).1.errors ≠ [] :=
  have h := (claim_c3_refresh_failure_frame (fun _ => FetchRes.httpFail 500)
    (fun _ => FetchRes.httpFail 500) "t1" "t2" ⟨[], [], [], [], none⟩).2.2
    (fun _ => rfl) (fun _ => rfl)
  ⟨h.2.1, h.2.2.1⟩

/-- C7 counterexample: with a stored schema document that is not a JSON
object (the boolean `true`, a legal draft 2020-12 schema), the registry
loop raises `TypeError` at `"$id" in s`, so every validation call fails
instead of building a resolution context that omits the document. -/
theorem claim_c7_counterexample :
    buildResourcesSt
      (all_schema_names ⟨[], [("coa", Json.bool true)], [], [], none⟩)
      ⟨[], [("coa", Json.bool true)], [], [], none⟩ =
      .error (.typeError "not iterable") ∧
    validate_data (fun _ _ _ => []) ⟨[], [("coa", Json.bool true)], [], [], none⟩
      "coa" Json.null = .error (.typeError "not iterable") := ⟨rfl, rfl⟩

/-- C7 (amended): provided every stored schema document is a JSON object,
the resolution registry of `validate_data` is rebuilt per call from the
current store: building it yields exactly one entry per stored schema that
declares an `$id` (objects without one omitted), mapping the identifier
value to the document body; the checker receives the registry of the store
as it stands at the call; a schema updated by a successful refresh fetch
appears in the registry built afterwards. Without the proviso the loop can
raise: a stored non-iterable document (number, boolean, null) makes the
registry construction fail. -/
theorem claim_c7_resolution_context
    (ie : Json → Json → List (Json × Json) → List VErr)
    (st : Store) (sn : String) (data : Json) (schema : Json) :
    ((∀ n ∈ all_schema_names st, ∃ fs, readSchema st n = some (Json.obj fs)) →
      ∃ st2, buildResourcesSt (all_schema_names st) st =
        .ok (pureResources st, st2)) ∧
    (∀ u s, (u, s) ∈ pureResources st ↔
      ∃ n, n ∈ all_schema_names st ∧ readSchema st n = some s ∧
        jlookup s "$id" = some u) ∧
    ((∀ n ∈ all_schema_names st, ∃ fs, readSchema st n = some (Json.obj fs)) →
      readSchema st sn = some schema →
      ∃ st2, validate_data ie st sn data =
        .ok ({ valid := (processErrors (ie schema data (pureResources st))).length == 0,
               schemaName := sn,
               errorCount := (processErrors (ie schema data (pureResources st))).length,
               errors := processErrors (ie schema data (pureResources st)) }, st2)) ∧
    ((∃ n, n ∈ all_schema_names st ∧ ∃ s, readSchema st n = some s ∧
        nonIterable s = true) →
      ∃ e, buildResourcesSt (all_schema_names st) st = .error e) ∧
    (∀ (fS fR : String → FetchRes) (now n : String) (d u : Json),
      n ∈ githubSchemaFiles → fS n = .ok d → jlookup d "$id" = some u →
      readSchema (sync_schemas_from_github none fS fR now st).2 n = some d ∧
      n ∈ all_schema_names (sync_schemas_from_github none fS fR now st).2 ∧
      (u, d) ∈ pureResources (sync_schemas_from_github none fS fR now st).2) := by
  refine ⟨?_, ?_, ?_, ?_, ?_⟩
  · intro hobj
    obtain ⟨st2, hb, _, _, _, _, _⟩ := buildResourcesSt_spec
      (all_schema_names st) st hobj
    exact ⟨st2, hb⟩
  · exact fun u s => mem_resOf (all_schema_names st) st u s
  · intro hobj h
    exact validate_data_ok_spec ie st sn data schema hobj h
  · intro hbad
    exact buildResourcesSt_err_of_nonIterable (all_schema_names st) st
      (fun n hn => readSchema_isSome_of_names st n hn) hbad
  · intro fS fR now n d u hmem hf hid
    have hsucc := syncItems_success_lookup fS "Schema" githubSchemaFiles
      st.schemaCache st.schemaDisk n d hf hmem
    have hc : alookup ((sync_schemas_from_github none fS fR now st).2).schemaCache n =
        some d := hsucc.1
    have hd : alookup ((sync_schemas_from_github none fS fR now st).2).schemaDisk n =
        some d := hsucc.2
    have hread : readSchema (sync_schemas_from_github none fS fR now st).2 n =
        some d := by
      simp [readSchema, hc, Option.orElse]
    have hnames : n ∈ all_schema_names (sync_schemas_from_github none fS fR now st).2 :=
      (mem_sortStrs _ n).mpr (mem_keys_of_alookup _ n d hd)
    exact ⟨hread, hnames,
      (mem_resOf _ _ u d).mpr ⟨n, hnames, hread, hid⟩⟩

theorem claim_c7_witness :
    (Json.str "u", Json.obj [("$id", Json.str "u")]) ∈
      pureResources (sync_schemas_from_github none
        (fun _ => FetchRes.ok (Json.obj [("$id", Json.str "u")]))
        (fun _ => FetchRes.httpFail 500) "t" ⟨[], [], [], [], none⟩).2 :=
  ((claim_c7_resolution_context (fun _ _ _ => []) ⟨[], [], [], [], none⟩
    "x" Json.null Json.null).2.2.2.2
    (fun _ => FetchRes.ok (Json.obj [("$id", Json.str "u")]))
    (fun _ => FetchRes.httpFail 500) "t" "strain"
    (Json.obj [("$id", Json.str "u")]) (Json.str "u")
    (by simp [githubSchemaFiles]) rfl rfl).2.2

/-- C4 counterexample: on a dataset state whose single record lacks a name
field, an unmatched terpene lookup raises `KeyError` from the not-found
path's available-names comprehension — so the lookup does not hold for
every dataset state without raising. -/
theorem claim_c4_counterexample :
    get_terpene_info none (some "x")
      ⟨[], [],
       [("terpene-library", Json.obj [("terpenes", Json.arr [Json.obj []])])],
       [], none⟩ =
      .error (.keyError "name") := rfl

/-- C4 (amended): on datasets whose records are objects carrying a string
name (for colors: terpene) field — and with the cannabinoid lookup also
matching `fullName`, and an empty argument string counting as not supplied
— the three record lookups never raise: each returns the first record in
dataset order satisfying its loop's id/name test, and otherwise a
structured not-found result listing every available name. -/
theorem claim_c4_lookups_total (st : Store) (tid nm cid cnm : Option String)
    (colorName : String) (tlib clib colors : Json)
    (hT : readRef st "terpene-library" = some tlib)
    (hTwfd : wfDataset tlib "terpenes" = true)
    (hTwf : ∀ t ∈ jRecords tlib "terpenes", hasStrField "name" t = true)
    (hC : readRef st "cannabinoid-library" = some clib)
    (hCwfd : wfDataset clib "cannabinoids" = true)
    (hCwf : ∀ c ∈ jRecords clib "cannabinoids",
      hasStrField "name" c = true ∧ optStrField "fullName" c = true)
    (hK : readRef st "terpene-colors" = some colors)
    (hKwfd : wfDataset colors "colors" = true)
    (hKwf : ∀ e ∈ jRecords colors "colors", hasStrField "terpene" e = true) :
    (∃ st1, get_terpene_info tid nm st = .ok
      ((match (jRecords tlib "terpenes").find? (terpMatchB tid nm) with
        | some t => .found t
        | none => .notFound
            (s!"Terpene not found. Search: id={optStr tid}, name={optStr nm}")
            ((jRecords tlib "terpenes").map fun t => jGetD t "name" .null)), st1)) ∧
    (∃ st1, get_cannabinoid_info cid cnm st = .ok
      ((match (jRecords clib "cannabinoids").find? (canMatchB cid cnm) with
        | some c => .found c
        | none => .notFound
            (s!"Cannabinoid not found. Search: id={optStr cid}, name={optStr cnm}")
            ((jRecords clib "cannabinoids").map canAvailB)), st1)) ∧
    (∃ st1, lookup_terpene_color colorName st = .ok
      ((match (jRecords colors "colors").find? (colorMatchB colorName) with
        | some e => .found e
        | none => .notFound (s!"Terpene color not found: {colorName}")
            ((jRecords colors "colors").map fun e => jGetD e "terpene" .null)), st1)) :=
  ⟨get_terpene_info_spec st tid nm tlib hT hTwfd hTwf,
   get_cannabinoid_info_spec st cid cnm clib hC hCwfd hCwf,
   lookup_terpene_color_spec st colorName colors hK hKwfd hKwf⟩

theorem claim_c4_witness :
    ∃ st1, get_terpene_info (some "terpene:myrcene") none
      ⟨[], [],
       [("terpene-library", Json.obj [("terpenes", Json.arr
          [Json.obj [("id", Json.str "terpene:myrcene"),
                     ("name", Json.str "Myrcene")]])]),
        ("cannabinoid-library", Json.obj [("cannabinoids", Json.arr [])]),
        ("terpene-colors", Json.obj [("colors", Json.arr [])])],
       [], none⟩ = .ok
      ((match (jRecords (Json.obj [("terpenes", Json.arr
          [Json.obj [("id", Json.str "terpene:myrcene"),
                     ("name", Json.str "Myrcene")]])]) "terpenes").find?
            (terpMatchB (some "terpene:myrcene") none) with
        | some t => .found t
        | none => .notFound
            ("Terpene not found. Search: id=terpene:myrcene, name=None")
            ((jRecords (Json.obj [("terpenes", Json.arr
              [Json.obj [("id", Json.str "terpene:myrcene"),
                         ("name", Json.str "Myrcene")]])]) "terpenes").map
              fun t => jGetD t "name" .null)), st1) :=
  (claim_c4_lookups_total
    ⟨[], [],
     [("terpene-library", Json.obj [("terpenes", Json.arr
        [Json.obj [("id", Json.str "terpene:myrcene"),
                   ("name", Json.str "Myrcene")]])]),
      ("cannabinoid-library", Json.obj [("cannabinoids", Json.arr [])]),
      ("terpene-colors", Json.obj [("colors", Json.arr [])])],
     [], none⟩
    (some "terpene:myrcene") none none none "myrcene"
    (Json.obj [("terpenes", Json.arr
      [Json.obj [("id", Json.str "terpene:myrcene"),
                 ("name", Json.str "Myrcene")]])])
    (Json.obj [("cannabinoids", Json.arr [])])
    (Json.obj [("colors", Json.arr [])])
    rfl (by decide) (by decide) rfl (by decide) (by decide)
    rfl (by decide) (by decide)).1

/-- C10: the cannabinoid lookup also matches the record's `fullName`
case-insensitively against the name argument: when a record's fullName
equals the supplied name and no earlier record matches the loop's test,
that record is returned. -/
theorem claim_c10_fullName_match (st : Store) (cid : Option String)
    (n : String) (clib : Json) (pre post : List Json) (r : Json) (f : String)
    (hC : readRef st "cannabinoid-library" = some clib)
    (hwf : ∀ c ∈ jRecords clib "cannabinoids",
      hasStrField "name" c = true ∧ optStrField "fullName" c = true)
    (hrecs : jRecords clib "cannabinoids" = pre ++ r :: post)
    (hne : n ≠ "")
    (hfull : jGetD r "fullName" (.str "") = Json.str f)
    (hmatch : lowerStr f = lowerStr n)
    (hpre : ∀ p ∈ pre, canMatchB cid (some n) p = false) :
    ∃ st1, get_cannabinoid_info cid (some n) st = .ok (.found r, st1) := by
  have hwfd : wfDataset clib "cannabinoids" = true := by
    apply wfDataset_of_records_ne_nil
    rw [hrecs]
    simp
  obtain ⟨st1, hspec⟩ := get_cannabinoid_info_spec st cid (some n) clib hC hwfd hwf
  have hr : canMatchB cid (some n) r = true := by
    have h1 : pyTruthy (some n) = true := by simp [pyTruthy, hne]
    have h2 : (lowerStr (strOfD (jGetD r "fullName" (.str ""))) ==
        lowerStr (optStr (some n))) = true := by
      rw [hfull]
      simp [strOfD, optStr, hmatch]
    simp [canMatchB, h1, h2]
  have hfind : (jRecords clib "cannabinoids").find? (canMatchB cid (some n)) =
      some r := by
    rw [hrecs]
    exact find?_first _ pre post r hpre hr
  rw [hfind] at hspec
  exact ⟨st1, hspec⟩

theorem claim_c10_witness :
    ∃ st1, get_cannabinoid_info none (some "tetrahydrocannabinol")
      ⟨[], [],
       [("cannabinoid-library", Json.obj [("cannabinoids", Json.arr
          [Json.obj [("name", Json.str "CBD"),
                     ("fullName", Json.str "Cannabidiol")],
           Json.obj [("name", Json.str "THC"),
                     ("fullName", Json.str "Tetrahydrocannabinol")]])])],
       [], none⟩ = .ok
      (.found (Json.obj [("name", Json.str "THC"),
                         ("fullName", Json.str "Tetrahydrocannabinol")]), st1) :=
  claim_c10_fullName_match
    ⟨[], [],
     [("cannabinoid-library", Json.obj [("cannabinoids", Json.arr
        [Json.obj [("name", Json.str "CBD"),
                   ("fullName", Json.str "Cannabidiol")],
         Json.obj [("name", Json.str "THC"),
                   ("fullName", Json.str "Tetrahydrocannabinol")]])])],
     [], none⟩
    none "tetrahydrocannabinol"
    (Json.obj [("cannabinoids", Json.arr
      [Json.obj [("name", Json.str "CBD"),
                 ("fullName", Json.str "Cannabidiol")],
       Json.obj [("name", Json.str "THC"),
                 ("fullName", Json.str "Tetrahydrocannabinol")]])])
    [Json.obj [("name", Json.str "CBD"), ("fullName", Json.str "Cannabidiol")]]
    []
    (Json.obj [("name", Json.str "THC"),
               ("fullName", Json.str "Tetrahydrocannabinol")])
    "Tetrahydrocannabinol"
    rfl (by decide) rfl (by decide) rfl (by decide) (by decide)

/-- C5 counterexample: two distinct violations share the empty field path;
the stable path-keyed sort keeps their arrival order, so permuting the
checker output permutes the returned list — the output is not determined
by the violation set alone, contradicting determinism regardless of
internal traversal order. -/
theorem claim_c5_counterexample :
    List.Perm
      [({ absolutePath := [], message := "a", absoluteSchemaPath := [] } : VErr),
       { absolutePath := [], message := "b", absoluteSchemaPath := [] }]
      [({ absolutePath := [], message := "b", absoluteSchemaPath := [] } : VErr),
       { absolutePath := [], message := "a", absoluteSchemaPath := [] }] ∧
    processErrors
      [{ absolutePath := [], message := "a", absoluteSchemaPath := [] },
       { absolutePath := [], message := "b", absoluteSchemaPath := [] }] ≠
    processErrors
      [{ absolutePath := [], message := "b", absoluteSchemaPath := [] },
       { absolutePath := [], message := "a", absoluteSchemaPath := [] }] :=
  ⟨List.Perm.swap _ _ _, by decide⟩

/-- C5 (amended): `validate_data` collects every violation and returns
them ordered by field path, lexicographically over the segments, with a
stable sort; an error whose field path is empty renders as the
whole-document marker `"(root)"`; the output is independent of the
checker's internal traversal order whenever no two violations share a
field path (with shared paths, ties keep traversal order); and the sorted
ok result is returned whenever the schema name is readable and every
stored schema document is a JSON object (a stored non-object schema makes
the registry loop raise instead). -/
theorem claim_c5_errors_sorted
    (es : List VErr) (ie : Json → Json → List (Json × Json) → List VErr)
    (st : Store) (sn : String) (data : Json) (schema : Json) :
    List.Perm (sortErrs es) es ∧
    (sortErrs es).Pairwise
      (fun a b => pathLeB a.absolutePath b.absolutePath = true) ∧
    processErrors es = (sortErrs es).map renderErr ∧
    (∀ e : VErr, e.absolutePath = [] → (renderErr e).path = "(root)") ∧
    ((es.map VErr.absolutePath).Nodup →
      ∀ es', List.Perm es' es → processErrors es' = processErrors es) ∧
    ((∀ n ∈ all_schema_names st, ∃ fs, readSchema st n = some (Json.obj fs)) →
      readSchema st sn = some schema →
      ∃ st2, validate_data ie st sn data =
        .ok ({ valid := (processErrors (ie schema data (pureResources st))).length == 0,
               schemaName := sn,
               errorCount := (processErrors (ie schema data (pureResources st))).length,
               errors := processErrors (ie schema data (pureResources st)) }, st2)) := by
  refine ⟨sortErrs_perm es, sortErrs_sorted es, rfl, ?_, ?_, ?_⟩
  · intro e he
    simp [renderErr, he, joinDot]
  · intro hnd es' hp
    exact processErrors_det es es' hp hnd
  · intro hobj h
    exact validate_data_ok_spec ie st sn data schema hobj h

theorem claim_c5_witness :
    processErrors
      [({ absolutePath := [Seg.key "b"], message := "m1", absoluteSchemaPath := [] } : VErr),
       { absolutePath := [Seg.key "a"], message := "m2", absoluteSchemaPath := [] }] =
    processErrors
      [({ absolutePath := [Seg.key "a"], message := "m2", absoluteSchemaPath := [] } : VErr),
       { absolutePath := [Seg.key "b"], message := "m1", absoluteSchemaPath := [] }] :=
  (claim_c5_errors_sorted
    [{ absolutePath := [Seg.key "a"], message := "m2", absoluteSchemaPath := [] },
     { absolutePath := [Seg.key "b"], message := "m1", absoluteSchemaPath := [] }]
    (fun _ _ _ => []) ⟨[], [], [], [], none⟩ "x" Json.null Json.null).2.2.2.2.1
    (by decide) _ (List.Perm.swap _ _ _)

/-- The catalog state of the C1 counterexample: three datasets are
present — the two searched libraries (empty) and the terpene-colors
dataset, whose one record contains the query text. -/
def stC1 : Store :=
  ⟨[], [],
   [("terpene-library", Json.obj [("terpenes", Json.arr [])]),
    ("cannabinoid-library", Json.obj [("cannabinoids", Json.arr [])]),
    ("terpene-colors", Json.obj [("colors", Json.arr
      [Json.obj [("terpene", Json.str "myrcene")]])])],
   [], none⟩

/-- C1 counterexample: the terpene-colors dataset is in the catalog and
its record's full serialised text contains the query, yet the search
returns no entry for it — the search does not cover every reference
dataset in the catalog. -/
theorem claim_c1_counterexample :
    search_reference_data "myrcene" stC1 =
      .ok ({ query := "myrcene", resultCount := 0, results := [] }, stC1) ∧
    readRef stC1 "terpene-colors" =
      some (Json.obj [("colors", Json.arr
        [Json.obj [("terpene", Json.str "myrcene")]])]) ∧
    occursIn (lowerStr "myrcene")
      (lowerStr (dumps (Json.obj [("terpene", Json.str "myrcene")]))) = true := by
  refine ⟨rfl, rfl, ?_⟩
  decide

/-- C1 (amended): the search covers exactly the terpene library followed by
the cannabinoid library (no other dataset): on object records it returns,
in dataset order then record order, one entry per record whose lowercased
serialised text contains the lowercased query, carrying the dataset kind,
the record's id and name, and a matchContext naming exactly the top-level
fields whose serialised value contains the query. -/
theorem claim_c1_search (query : String) (st : Store) (tlib clib : Json)
    (hT : readRef st "terpene-library" = some tlib)
    (hTd : wfDataset tlib "terpenes" = true)
    (hC : readRef st "cannabinoid-library" = some clib)
    (hCd : wfDataset clib "cannabinoids" = true)
    (hTo : ∀ t ∈ jRecords tlib "terpenes", isObjB t = true)
    (hCo : ∀ c ∈ jRecords clib "cannabinoids", isObjB c = true) :
    ∃ st2, search_reference_data query st = .ok
      ({ query := query,
         resultCount :=
           ((jRecords tlib "terpenes").filterMap
              (searchEntryB "terpene" (lowerStr query)) ++
            (jRecords clib "cannabinoids").filterMap
              (searchEntryB "cannabinoid" (lowerStr query))).length,
         results :=
           (jRecords tlib "terpenes").filterMap
             (searchEntryB "terpene" (lowerStr query)) ++
           (jRecords clib "cannabinoids").filterMap
             (searchEntryB "cannabinoid" (lowerStr query)) }, st2) := by
  obtain ⟨st1, hg1⟩ := getReferenceSt_ok_of_read st "terpene-library" tlib hT
  obtain ⟨_, hpt, _, _, _, _⟩ := getReferenceSt_preserves st "terpene-library" tlib st1 hg1
  have hC1 : readRef st1 "cannabinoid-library" = some clib := by
    rw [hpt]; exact hC
  obtain ⟨st2, hg2⟩ := getReferenceSt_ok_of_read st1 "cannabinoid-library" clib hC1
  have hs1 := searchRecords_ok "terpene" (lowerStr query)
    (jRecords tlib "terpenes") hTo
  have hs2 := searchRecords_ok "cannabinoid" (lowerStr query)
    (jRecords clib "cannabinoids") hCo
  refine ⟨st2, ?_⟩
  simp only [search_reference_data, hg1, exBind_ok,
    jRecordsE_wf tlib "terpenes" hTd, jRecordsE_wf clib "cannabinoids" hCd,
    hs1, hg2, hs2, exPure_eq]

theorem claim_c1_witness :
    ∃ st2, search_reference_data "xyz" stC1 =
      .ok ({ query := "xyz", resultCount := 0, results := [] }, st2) :=
  claim_c1_search "xyz" stC1 (Json.obj [("terpenes", Json.arr [])])
    (Json.obj [("cannabinoids", Json.arr [])]) rfl (by decide) rfl (by decide)
    (by decide) (by decide)
